import Mathlib

/-!
# imgfs: an image exposed as a read-only file tree

A shallow embedding of `main.go`: the directory nodes (`Dir`), the channel
files (`File`), the read sessions (`FileHandle`) and the few functions of the
Go standard library the program calls (`strconv.Atoi`, `strconv.Itoa`,
`strconv.FormatUint`, `fmt.Sprintf("%0*d", ..)`, `strings.HasPrefix`,
`strings.TrimPrefix`, `strings.Reader.Read`).

Conventions.
* A Go `string` is a sequence of bytes.  It is modelled by `List Char`, one
  `Char` per byte (the byte `b` is the character with code `b`).  All names
  the program builds or compares against are ASCII.
* A Go `int` is a 64-bit signed integer, modelled by `Int`; `strconv.Atoi`
  reports a range error outside `[-2^63, 2^63 - 1]`.
* A function returning `(T, error)` is modelled by `Except Err T`.
-/

namespace Imgfs

/-- A Go string: a list of bytes, one `Char` per byte. -/
abbrev GoString := List Char

/-- The error values the program can return, and the run-time failure of an
out-of-range slice index. -/
inductive Err where
  /-- The errno `syscall.ENOENT`. -/
  | ENOENT
  /-- The sentinel `io.EOF`. -/
  | EOF
  /-- A `*strconv.NumError` wrapping `strconv.ErrSyntax`. -/
  | numSyntaxErr
  /-- A `*strconv.NumError` wrapping `strconv.ErrRange`. -/
  | numRangeErr
  /-- The value of `fmt.Errorf("invalid filename %q", name)`. -/
  | invalidFilename (name : GoString)
  /-- The value of `fmt.Errorf("getting color for file: %w", err)`. -/
  | gettingColor (cause : Err)
  /-- A run-time failure: slice index out of range. -/
  | indexOutOfRange
  deriving DecidableEq, Repr

/-! ## The Go standard library functions used by the program -/

/-- The smallest Go `int` is `-2^63`; this is `2^63`. -/
def intCutoff : Nat := 2 ^ 63

/-- The character of a decimal digit `d < 10`. -/
def digitChar (d : Nat) : Char :=
  match d with
  | 0 => '0'
  | 1 => '1'
  | 2 => '2'
  | 3 => '3'
  | 4 => '4'
  | 5 => '5'
  | 6 => '6'
  | 7 => '7'
  | 8 => '8'
  | _ => '9'

/-- The decimal digits of `n`, most significant first, with `fuel` bounding
the number of digits produced. -/
def decimalDigits : Nat → Nat → GoString
  | 0, _ => []
  | fuel + 1, n =>
    if n < 10 then [digitChar n]
    else decimalDigits fuel (n / 10) ++ [digitChar (n % 10)]

/-- The Go function `strconv.FormatUint(n, 10)`: the decimal rendering of `n`,
no leading zeros, `"0"` for zero.  (`n + 1` digits are always enough.) -/
def FormatUint (n : Nat) : GoString :=
  decimalDigits (n + 1) n

/-- The Go function `strconv.Itoa`: a minus sign for a negative number, then
the decimal rendering of the magnitude. -/
def Itoa (i : Int) : GoString :=
  if i < 0 then '-' :: FormatUint i.natAbs else FormatUint i.natAbs

/-- The value of a digit byte: `ch -= '0'; if ch > 9 { syntax error }`. -/
def digitValue (c : Char) : Option Nat :=
  if 48 ≤ c.toNat ∧ c.toNat ≤ 57 then some (c.toNat - 48) else none

/-- The number a string of digits writes, read digit by digit
(`n = n*10 + digit`), without any bound; `none` when a byte is not a digit. -/
def parseDigits : GoString → Nat → Option Nat
  | [], acc => some acc
  | c :: cs, acc =>
    match digitValue c with
    | none => none
    | some d => parseDigits cs (acc * 10 + d)

/-- The largest `uint64` is `2^64 - 1`; this is `2^64`. -/
def uintCutoff : Nat := 2 ^ 64

/-- The digit loop of `strconv.ParseUint(s, 10, 64)`, byte by byte from the
left: a byte that is not a digit is a syntax error, and a digit that takes the
value `n*10 + digit` past the largest `uint64` is a range error, whatever
follows.  (The fast path of `strconv.Atoi` for fewer than 19 bytes runs the
same loop, where no overflow can happen.) -/
def parseUint : GoString → Nat → Except Err Nat
  | [], acc => .ok acc
  | c :: cs, acc =>
    match digitValue c with
    | none => .error .numSyntaxErr
    | some d =>
      if acc * 10 + d < uintCutoff then parseUint cs (acc * 10 + d)
      else .error .numRangeErr

/-- The magnitude part of `strconv.Atoi`: at least one byte, then the digit
loop. -/
def parseMagnitude (s : GoString) : Except Err Nat :=
  match s with
  | [] => .error .numSyntaxErr
  | _ => parseUint s 0

/-- The Go function `strconv.Atoi` on a 64-bit platform: an optional sign
`+` or `-`, then one or more decimal digits; a syntax error otherwise, and a
range error when the value does not fit a 64-bit signed integer (also when
the digits read so far overflow a `uint64`, before any later byte is
looked at). -/
def Atoi (s : GoString) : Except Err Int :=
  match s with
  | [] => .error .numSyntaxErr
  | '-' :: rest =>
    match parseMagnitude rest with
    | .error err => .error err
    | .ok m => if m ≤ intCutoff then .ok (-(m : Int)) else .error .numRangeErr
  | '+' :: rest =>
    match parseMagnitude rest with
    | .error err => .error err
    | .ok m => if m < intCutoff then .ok (m : Int) else .error .numRangeErr
  | _ =>
    match parseMagnitude s with
    | .error err => .error err
    | .ok m => if m < intCutoff then .ok (m : Int) else .error .numRangeErr

/-- The Go function `strings.HasPrefix`. -/
def HasPrefix (s pre : GoString) : Bool :=
  pre.isPrefixOf s

/-- The Go function `strings.TrimPrefix`: `s` without the leading `pre` when
`s` starts with it, `s` itself otherwise. -/
def TrimPrefix (s pre : GoString) : GoString :=
  if HasPrefix s pre then s.drop pre.length else s

/-- The Go call `fmt.Sprintf("%0*d", width, y)` for a width `width ≥ 0`: the
digits of `|y|` are padded on the left with zeros up to `width` characters,
one fewer when a minus sign is written in front. -/
def SprintfZeroPad (width : Nat) (y : Int) : GoString :=
  let digits := FormatUint y.natAbs
  if y < 0 then
    '-' :: (List.replicate (width - 1 - digits.length) '0' ++ digits)
  else
    List.replicate (width - digits.length) '0' ++ digits

/-! ## The image (the pixel source) -/

/-- The Go type `image.Point`. -/
structure Point where
  X : Int
  Y : Int
  deriving DecidableEq, Repr

/-- The Go type `image.Rectangle`. -/
structure Rectangle where
  Min : Point
  Max : Point
  deriving DecidableEq, Repr

/-- The result of `color.Color.RGBA()`: four `uint32` samples. -/
structure RGBA where
  r : Nat
  g : Nat
  b : Nat
  a : Nat
  deriving DecidableEq, Repr

/-- The part of the Go interface `image.Image` the program uses: `Bounds()`,
and `At(x, y).RGBA()`. -/
structure Image where
  Bounds : Rectangle
  At : Int → Int → RGBA

/-! ## Directory nodes -/

/-- The Go type `dirType` with its three constants. -/
inductive dirType where
  | root
  | row
  | pixel
  deriving DecidableEq, Repr

/-- The Go type `Dir`: `value` is `[y]` for a row and `[y, x]` for a pixel. -/
structure Dir where
  img : Image
  dirType : dirType
  value : List Int

/-- The Go type `File`: one channel of one pixel. -/
structure File where
  img : Image
  name : GoString
  x : Int
  y : Int

/-- What `Dir.Lookup` returns as an `fs.Node`: a directory or a file. -/
inductive Node where
  | dir (d : Dir)
  | file (f : File)

/-- The Go type `fuse.DirentType`, the two values the program uses. -/
inductive DirentType where
  | DT_Dir
  | DT_File
  deriving DecidableEq, Repr

/-- The Go type `fuse.Dirent`, the two fields the program sets (`Typ` is the
field `Type`). -/
structure Dirent where
  Name : GoString
  Typ : DirentType
  deriving DecidableEq, Repr

/-- The Go type `FS`. -/
structure FS where
  img : Image

/-- The method `FS.Root`. -/
def FS.Root (f : FS) : Except Err Dir :=
  .ok { img := f.img, dirType := .root, value := [] }

/-- The method `Dir.Lookup`, with `name` the field `req.Name`.  In the pixel
case `d.value[1]` and `d.value[0]` fail at run time when the index list is too
short. -/
def Dir.Lookup (d : Dir) (name : GoString) : Except Err Node :=
  match d.dirType with
  | .root =>
    if HasPrefix name "row".toList then
      match Atoi (TrimPrefix name "row".toList) with
      | .error _ => .error .ENOENT
      | .ok rowNum =>
        if rowNum > d.img.Bounds.Max.Y then .error .ENOENT
        else .ok (.dir { img := d.img, dirType := .row, value := [rowNum] })
    else .error .ENOENT
  | .row =>
    if HasPrefix name "col".toList then
      match Atoi (TrimPrefix name "col".toList) with
      | .error _ => .error .ENOENT
      | .ok colNum =>
        if colNum > d.img.Bounds.Max.X then .error .ENOENT
        else .ok (.dir { img := d.img, dirType := .pixel, value := d.value ++ [colNum] })
    else .error .ENOENT
  | .pixel =>
    if name = "r".toList ∨ name = "g".toList ∨ name = "b".toList then
      match d.value[1]?, d.value[0]? with
      | some x, some y => .ok (.file { img := d.img, name := name, x := x, y := y })
      | _, _ => .error .indexOutOfRange
    else .error .ENOENT

/-- The loop `for y := lo; y < hi; y++ { res = append(res, entry y) }`: the
entries of `lo, lo + 1, ..., hi - 1` in that order. -/
def forRange (lo hi : Int) (entry : Int → Dirent) : List Dirent :=
  (List.range (hi - lo).toNat).map fun (k : Nat) => entry (lo + (k : Int))

/-- The method `Dir.ReadDirAll`; it never returns an error. -/
def Dir.ReadDirAll (d : Dir) : List Dirent :=
  match d.dirType with
  | .root =>
    let yMax := d.img.Bounds.Max.Y
    let lenYMax := (Itoa yMax).length
    forRange d.img.Bounds.Min.Y yMax fun y =>
      { Name := "row".toList ++ SprintfZeroPad lenYMax y, Typ := .DT_Dir }
  | .row =>
    let xMax := d.img.Bounds.Max.X
    let lenXMax := (Itoa xMax).length
    forRange d.img.Bounds.Min.X xMax fun x =>
      { Name := "col".toList ++ SprintfZeroPad lenXMax x, Typ := .DT_Dir }
  | .pixel =>
    [ { Name := "r".toList, Typ := .DT_File },
      { Name := "g".toList, Typ := .DT_File },
      { Name := "b".toList, Typ := .DT_File } ]

/-! ## Channel files and read sessions -/

/-- The method `File.getContents`: the 8-bit value of the channel in decimal,
then a newline. -/
def File.getContents (f : File) : Except Err GoString :=
  let c := f.img.At f.x f.y
  if f.name = "r".toList then .ok (FormatUint (c.r >>> 8) ++ "\n".toList)
  else if f.name = "g".toList then .ok (FormatUint (c.g >>> 8) ++ "\n".toList)
  else if f.name = "b".toList then .ok (FormatUint (c.b >>> 8) ++ "\n".toList)
  else .error (.invalidFilename f.name)

/-- The Go type `strings.Reader`: the string and the reading index. -/
structure Reader where
  s : GoString
  i : Nat
  deriving DecidableEq, Repr

/-- The Go function `strings.NewReader`. -/
def NewReader (s : GoString) : Reader :=
  { s := s, i := 0 }

/-- The byte a fresh `make([]byte, n)` is filled with. -/
def zeroByte : Char := Char.ofNat 0

/-- The built-in `copy(dst, src)`: the first `min(len dst, len src)` bytes of
`dst` are overwritten; returns the new `dst` and the number copied. -/
def copyBytes (dst src : List Char) : List Char × Nat :=
  let n := min dst.length src.length
  (src.take n ++ dst.drop n, n)

/-- The method `strings.Reader.Read`: at the end of the string it reads
nothing and returns `io.EOF`; otherwise it copies what fits into `b` and
advances.  Returns the reader, the buffer, the count and the error. -/
def Reader.Read (r : Reader) (b : List Char) : Reader × List Char × Nat × Option Err :=
  if r.i ≥ r.s.length then (r, b, 0, some .EOF)
  else
    let (b1, n) := copyBytes b (r.s.drop r.i)
    ({ r with i := r.i + n }, b1, n, none)

/-- The Go type `FileHandle`; `io.NopCloser` adds a `Close` that does nothing
to the reader. -/
structure FileHandle where
  r : Reader
  deriving DecidableEq, Repr

/-- The Go type `fuse.Attr`, the two fields the program sets. -/
structure Attr where
  Size : Nat
  Mode : Nat
  deriving DecidableEq, Repr

/-- The constant `io/fs.ModeDir`. -/
def ModeDir : Nat := 1 <<< 31

/-- The constant `io/fs.ModeType`: the bits that make a file something other
than a regular file (directory, symlink, named pipe, socket, device, character
device, irregular). -/
def ModeType : Nat :=
  1 <<< 31 ||| 1 <<< 27 ||| 1 <<< 25 ||| 1 <<< 24 ||| 1 <<< 26 ||| 1 <<< 21 ||| 1 <<< 19

/-- The constant `io/fs.ModePerm`. -/
def ModePerm : Nat := 0o777

/-- The method `FileMode.IsRegular`. -/
def IsRegular (m : Nat) : Bool :=
  m &&& ModeType == 0

/-- The method `FileMode.Perm`. -/
def Perm (m : Nat) : Nat :=
  m &&& ModePerm

/-- The method `Dir.Attr`. -/
def Dir.Attr (_d : Dir) (a : Attr) : Except Err Attr :=
  .ok { a with Mode := ModeDir ||| 0o755 }

/-- The method `File.Attr`: on success the size and mode of `a` are set (the
conversion `uint64(len(colStr))` changes nothing, a length is not negative). -/
def File.Attr (f : File) (a : Attr) : Except Err Attr :=
  match f.getContents with
  | .error err => .error err
  | .ok colStr => .ok { a with Size := colStr.length, Mode := 0o644 }

/-- The method `File.Open`. -/
def File.Open (f : File) : Except Err FileHandle :=
  match f.getContents with
  | .error err => .error (.gettingColor err)
  | .ok colStr => .ok { r := NewReader colStr }

/-- The method `FileHandle.Read`, with `size` the field `req.Size` (never
negative): returns the handle after the call, the value of `resp.Data`, and
the error. -/
def FileHandle.Read (fh : FileHandle) (size : Nat) : FileHandle × List Char × Option Err :=
  let val := List.replicate size zeroByte
  let (r1, val1, _, err) := fh.r.Read val
  ({ r := r1 }, val1, err)

/-- Counting digits with `fuel` steps: one digit below ten, one more than
`n / 10` has otherwise. -/
def digitCountAux : Nat → Nat → Nat
  | 0, _ => 1
  | fuel + 1, n => if n < 10 then 1 else digitCountAux fuel (n / 10) + 1

/-- The number of decimal digits of `n` (`n` steps are always enough). -/
def digitCount (n : Nat) : Nat :=
  digitCountAux n n

/-- The sample of the channel named `name` among the samples `c` of a pixel
(`r`, `g`, and `b` for any other name). -/
def sampleOf (c : RGBA) (name : GoString) : Nat :=
  if name = "r".toList then c.r else if name = "g".toList then c.g else c.b

/-- The content the specification gives a channel file: the decimal rendering
of the high byte `sample16 >> 8`, then one newline. -/
def channelText (sample16 : Nat) : GoString :=
  FormatUint (sample16 >>> 8) ++ "\n".toList

/-- The image of the end-to-end example: two columns, one row, the pixel
`(0, 0)` sampled as `r = 0xFFFF`, `g = 0x0000`, `b = 0x8000`, every other
position as zero. -/
def exampleImage : Image :=
  { Bounds := { Min := { X := 0, Y := 0 }, Max := { X := 2, Y := 1 } },
    At := fun x y =>
      if x = 0 ∧ y = 0 then { r := 0xFFFF, g := 0x0000, b := 0x8000, a := 0xFFFF }
      else { r := 0, g := 0, b := 0, a := 0 } }

/-- A larger image for examples: twelve columns, a hundred and one rows, all
samples zero. -/
def wideImage : Image :=
  { Bounds := { Min := { X := 0, Y := 0 }, Max := { X := 12, Y := 101 } },
    At := fun _ _ => { r := 0, g := 0, b := 0, a := 0 } }

/-- A byte is a decimal digit, `0` to `9`. -/
def isDigitByte (c : Char) : Bool :=
  decide ('0' ≤ c) && decide (c ≤ '9')

/-- A non-empty string of decimal digits. -/
def isDigitString (s : GoString) : Bool :=
  !s.isEmpty && s.all isDigitByte

/-- A string is written as a decimal integer: an optional sign `+` or `-`,
then one or more decimal digits and nothing else. -/
def isDecimalInteger (s : GoString) : Bool :=
  match s with
  | '-' :: rest => isDigitString rest
  | '+' :: rest => isDigitString rest
  | _ => isDigitString s

/-- The last `w` decimal digits of `k`, most significant first: the rendering
of `k` in exactly `w` characters when `k` has at most `w` digits. -/
def fixedDigits : Nat → Nat → GoString
  | 0, _ => []
  | w + 1, k => fixedDigits w (k / 10) ++ [digitChar (k % 10)]

/-- Byte-wise lexicographic order of strings, the order of Go's `<` on
strings: the first differing byte decides, and a proper leading part of a
string is smaller than the string. -/
def lexLess (s t : GoString) : Prop :=
  List.Lex (fun a b : Char => a < b) s t

/-- The directories reachable from `FS.Root` by successful `Dir.Lookup`
calls. -/
inductive Reachable (fs : FS) : Dir → Prop where
  | root (d : Dir) : fs.Root = .ok d → Reachable fs d
  | step (d d1 : Dir) (name : GoString) :
      Reachable fs d → d.Lookup name = .ok (.dir d1) → Reachable fs d1

/-- The length of the index list matches the kind of the directory: none for
the root, one (`[y]`) for a row, two (`[y, x]`) for a pixel. -/
def shapeOk (d : Dir) : Bool :=
  match d.dirType with
  | .root => d.value.length == 0
  | .row => d.value.length == 1
  | .pixel => d.value.length == 2

/-! ## Decimal rendering: unfolding, digit count, reading back -/

/-- With enough fuel the digits of `n` do not depend on the fuel. -/
theorem decimalDigits_fuel (f1 : Nat) :
    ∀ (f2 n : Nat), n < f1 → n < f2 → decimalDigits f1 n = decimalDigits f2 n := by
  induction f1 with
  | zero => intro f2 n h; omega
  | succ f1 ih =>
    intro f2 n h1 h2
    cases f2 with
    | zero => omega
    | succ f2 =>
      simp only [decimalDigits]
      by_cases h : n < 10
      · simp [h]
      · simp only [h, if_false]
        rw [ih f2 (n / 10) (by omega) (by omega)]

/-- The recursion `FormatUint` obeys: one digit below ten, otherwise the
rendering of `n / 10` followed by the last digit. -/
theorem FormatUint_unfold (n : Nat) :
    FormatUint n =
      if n < 10 then [digitChar n] else FormatUint (n / 10) ++ [digitChar (n % 10)] := by
  by_cases h : n < 10
  · simp [h, FormatUint, decimalDigits]
  · simp only [h, if_false]
    show decimalDigits (n + 1) n = decimalDigits (n / 10 + 1) (n / 10) ++ [digitChar (n % 10)]
    rw [decimalDigits]
    simp only [h, if_false]
    rw [decimalDigits_fuel n (n / 10 + 1) (n / 10) (by omega) (by omega)]

/-- With enough fuel the digits are those the core library writes in front of
its accumulator. -/
theorem toDigitsCore_decimalDigits (fuel : Nat) :
    ∀ (n : Nat) (ds : List Char), n < fuel →
      Nat.toDigitsCore 10 fuel n ds = decimalDigits fuel n ++ ds := by
  induction fuel with
  | zero => intro n ds h; omega
  | succ fuel ih =>
    intro n ds h
    have hd : Nat.digitChar (n % 10) = digitChar (n % 10) := by
      have hlt : n % 10 < 10 := Nat.mod_lt _ (by decide)
      generalize n % 10 = d at hlt
      interval_cases d <;> rfl
    simp only [Nat.toDigitsCore, decimalDigits, hd]
    by_cases h10 : n < 10
    · have h0 : n / 10 = 0 := by omega
      have hm : n % 10 = n := by omega
      simp [h10, h0, hm]
    · have h0 : ¬ n / 10 = 0 := by omega
      simp only [h10, h0, if_false]
      rw [ih (n / 10) _ (by omega)]
      simp

/-- The rendering `FormatUint n` is the decimal rendering `Nat.repr n` of the
core library. -/
theorem FormatUint_eq_repr (n : Nat) : FormatUint n = (Nat.repr n).toList := by
  simp only [Nat.repr, Nat.toDigits, toDigitsCore_decimalDigits (n + 1) n [] (by omega),
    FormatUint, List.append_nil]
  rfl

/-- With enough fuel the digit count of `n` does not depend on the fuel. -/
theorem digitCountAux_fuel (f1 : Nat) :
    ∀ (f2 n : Nat), n ≤ f1 → n ≤ f2 → digitCountAux f1 n = digitCountAux f2 n := by
  induction f1 with
  | zero =>
    intro f2 n h _
    have h0 : n = 0 := by omega
    subst h0
    cases f2 <;> simp [digitCountAux]
  | succ f1 ih =>
    intro f2 n h1 h2
    cases f2 with
    | zero =>
      have h0 : n = 0 := by omega
      subst h0
      simp [digitCountAux]
    | succ f2 =>
      simp only [digitCountAux]
      by_cases h : n < 10
      · simp [h]
      · simp only [h, if_false]
        rw [ih f2 (n / 10) (by omega) (by omega)]

/-- The recursion `digitCount` obeys. -/
theorem digitCount_unfold (n : Nat) :
    digitCount n = if n < 10 then 1 else digitCount (n / 10) + 1 := by
  by_cases h : n < 10
  · simp only [h, if_true]
    unfold digitCount
    cases n <;> simp [digitCountAux, h]
  · simp only [h, if_false]
    show digitCountAux n n = digitCountAux (n / 10) (n / 10) + 1
    obtain ⟨m, rfl⟩ : ∃ m, n = m + 1 := ⟨n - 1, by omega⟩
    rw [digitCountAux]
    simp only [h, if_false]
    rw [digitCountAux_fuel m ((m + 1) / 10) ((m + 1) / 10) (by omega) (by omega)]

/-- The digit count is the position of `n` among the powers of ten:
`n < 10 ^ digitCount n`, and `10 ^ (digitCount n - 1) ≤ n` unless `n = 0`. -/
theorem digitCount_spec (n : Nat) :
    n < 10 ^ digitCount n ∧ (0 < n → 10 ^ (digitCount n - 1) ≤ n) := by
  induction n using Nat.strong_induction_on with
  | _ n ih =>
    rw [digitCount_unfold]
    by_cases h : n < 10
    · simp only [h, if_true]
      omega
    · simp only [h, if_false]
      obtain ⟨h1, h2⟩ := ih (n / 10) (by omega)
      have h3 := h2 (by omega)
      have hpos : 0 < digitCount (n / 10) := by
        rw [digitCount_unfold]; split <;> omega
      constructor
      · rw [pow_succ]; omega
      · intro _
        have e : digitCount (n / 10) + 1 - 1 = (digitCount (n / 10) - 1) + 1 := by omega
        rw [e, pow_succ]; omega

/-- The rendering of `n` has `digitCount n` characters. -/
theorem FormatUint_length (n : Nat) : (FormatUint n).length = digitCount n := by
  induction n using Nat.strong_induction_on with
  | _ n ih =>
    rw [FormatUint_unfold, digitCount_unfold]
    by_cases h : n < 10
    · simp [h]
    · simp only [h, if_false, List.length_append, List.length_singleton]
      rw [ih (n / 10) (by omega)]

/-- A smaller number has no more digits. -/
theorem digitCount_mono : ∀ (n m : Nat), m ≤ n → digitCount m ≤ digitCount n := by
  intro n
  induction n using Nat.strong_induction_on with
  | _ n ih =>
    intro m hm
    rw [digitCount_unfold, digitCount_unfold n]
    by_cases hn : n < 10
    · have : m < 10 := by omega
      simp [hn, this]
    · by_cases h : m < 10
      · simp [hn, h]
      · simp only [hn, h, if_false]
        have := ih (n / 10) (by omega) (m / 10) (Nat.div_le_div_right hm)
        omega

/-- Every number has at least one digit. -/
theorem digitCount_pos (n : Nat) : 0 < digitCount n := by
  rw [digitCount_unfold]
  split <;> omega

/-- A digit character reads back as its digit. -/
theorem digitValue_digitChar (d : Nat) (h : d < 10) : digitValue (digitChar d) = some d := by
  interval_cases d <;> rfl

/-- The digit loop over a concatenation runs over the first part, then over
the second. -/
theorem parseDigits_append (s t : GoString) :
    ∀ acc, parseDigits (s ++ t) acc = (parseDigits s acc).bind (parseDigits t) := by
  induction s with
  | nil => intro acc; rfl
  | cons c cs ih =>
    intro acc
    simp only [List.cons_append, parseDigits]
    cases digitValue c with
    | none => rfl
    | some d => exact ih _

/-- Reading back the rendering of `n` gives `n`. -/
theorem parseDigits_FormatUint (n : Nat) : parseDigits (FormatUint n) 0 = some n := by
  induction n using Nat.strong_induction_on with
  | _ n ih =>
    rw [FormatUint_unfold]
    by_cases h : n < 10
    · simp [h, parseDigits, digitValue_digitChar n h]
    · simp only [h, if_false]
      rw [parseDigits_append, ih (n / 10) (by omega)]
      simp only [Option.bind, parseDigits, digitValue_digitChar (n % 10) (by omega)]
      congr 1
      omega

/-- The rendering of `n` starts with a digit character. -/
theorem FormatUint_head (n : Nat) :
    ∃ d cs, d < 10 ∧ FormatUint n = digitChar d :: cs := by
  induction n using Nat.strong_induction_on with
  | _ n ih =>
    rw [FormatUint_unfold]
    by_cases h : n < 10
    · exact ⟨n, [], h, by simp [h]⟩
    · obtain ⟨d, cs, hd, hcs⟩ := ih (n / 10) (by omega)
      exact ⟨d, cs ++ [digitChar (n % 10)], hd, by simp [h, hcs]⟩

/-- The digit loop never lowers its accumulator. -/
theorem parseDigits_ge (s : GoString) :
    ∀ acc m, parseDigits s acc = some m → acc ≤ m := by
  induction s with
  | nil =>
    intro acc m h
    simp only [parseDigits, Option.some.injEq] at h
    omega
  | cons c cs ih =>
    intro acc m h
    simp only [parseDigits] at h
    cases hd : digitValue c with
    | none => rw [hd] at h; cases h
    | some d =>
      rw [hd] at h
      have := ih _ _ h
      omega

/-- On a string of digits the bounded loop gives the number written when it
fits a `uint64`, and a range error otherwise. -/
theorem parseUint_of_parseDigits (s : GoString) :
    ∀ acc m, acc < uintCutoff → parseDigits s acc = some m →
      parseUint s acc = if m < uintCutoff then .ok m else .error .numRangeErr := by
  induction s with
  | nil =>
    intro acc m hacc h
    simp only [parseDigits, Option.some.injEq] at h
    subst h
    simp [parseUint, hacc]
  | cons c cs ih =>
    intro acc m hacc h
    simp only [parseDigits] at h
    simp only [parseUint]
    cases hd : digitValue c with
    | none => rw [hd] at h; cases h
    | some d =>
      rw [hd] at h
      simp only
      by_cases hlt : acc * 10 + d < uintCutoff
      · simp only [hlt, if_true]
        exact ih _ _ hlt h
      · have hge := parseDigits_ge cs _ _ h
        have hm : ¬ m < uintCutoff := by omega
        simp only [hlt, hm, if_false]

/-- On a string that holds a byte that is not a digit the bounded loop
fails. -/
theorem parseUint_of_parseDigits_none (s : GoString) :
    ∀ acc, parseDigits s acc = none → ∃ err, parseUint s acc = .error err := by
  induction s with
  | nil => intro acc h; simp [parseDigits] at h
  | cons c cs ih =>
    intro acc h
    simp only [parseDigits] at h
    simp only [parseUint]
    cases hd : digitValue c with
    | none => exact ⟨_, rfl⟩
    | some d =>
      rw [hd] at h
      simp only
      by_cases hlt : acc * 10 + d < uintCutoff
      · simp only [hlt, if_true]
        exact ih _ h
      · simp only [hlt, if_false]
        exact ⟨_, rfl⟩

/-- The bounded loop reads the rendering of `n`: `n` when it fits a `uint64`,
a range error otherwise. -/
theorem parseUint_FormatUint (n : Nat) :
    parseUint (FormatUint n) 0 =
      if n < uintCutoff then .ok n else .error .numRangeErr :=
  parseUint_of_parseDigits _ 0 n (by decide) (parseDigits_FormatUint n)

/-- A string that starts with a digit is read by `Atoi` without a sign. -/
theorem Atoi_digit_head (d : Nat) (hd : d < 10) (cs : GoString) :
    Atoi (digitChar d :: cs) =
      match parseUint (digitChar d :: cs) 0 with
      | .error err => .error err
      | .ok m => if m < intCutoff then .ok (m : Int) else .error .numRangeErr := by
  interval_cases d <;> rfl

/-- The function `Atoi` reads the rendering of a number below `2^63` back. -/
theorem Atoi_FormatUint (n : Nat) (h : n < intCutoff) : Atoi (FormatUint n) = .ok (n : Int) := by
  obtain ⟨d, cs, hd, hcs⟩ := FormatUint_head n
  rw [hcs, Atoi_digit_head d hd cs, ← hcs, parseUint_FormatUint]
  have h2 : n < uintCutoff := by unfold intCutoff at h; unfold uintCutoff; omega
  simp [h, h2]

/-- The function `Atoi` reads a minus sign and the rendering of a number up to
`2^63` as the negative number. -/
theorem Atoi_neg_FormatUint (n : Nat) (h : n ≤ intCutoff) :
    Atoi ('-' :: FormatUint n) = .ok (-(n : Int)) := by
  obtain ⟨d, cs, _, hcs⟩ := FormatUint_head n
  have h2 : n < uintCutoff := by unfold intCutoff at h; unfold uintCutoff; omega
  have hp : parseMagnitude (FormatUint n) = .ok n := by
    rw [parseMagnitude, hcs, ← hcs]
    · rw [parseUint_FormatUint]
      simp [h2]
    · intro hnil; simp [hcs] at hnil
  simp only [Atoi, hp]
  simp [h]

/-! ## Listing a directory -/

/-- A number that is not negative is rendered by `Itoa` without a sign. -/
theorem Itoa_natCast (n : Nat) : Itoa (n : Int) = FormatUint n := by
  simp [Itoa]

/-- Zero padding of a number that is not negative: zeros in front of the
digits, up to the width. -/
theorem SprintfZeroPad_natCast (w n : Nat) :
    SprintfZeroPad w (n : Int) = List.replicate (w - digitCount n) '0' ++ FormatUint n := by
  simp [SprintfZeroPad, FormatUint_length]

/-- The loop from zero to `n` makes one entry for each of `0, .., n - 1`. -/
theorem forRange_zero (n : Nat) (entry : Int → Dirent) :
    forRange 0 (n : Int) entry = (List.range n).map fun (k : Nat) => entry (k : Int) := by
  simp [forRange]

/-- The padded rendering of an index below the bound has exactly as many
characters as the bound has digits. -/
theorem padded_length (n i : Nat) (h : i ≤ n) :
    (List.replicate (digitCount n - digitCount i) '0' ++ FormatUint i).length
      = digitCount n := by
  have := digitCount_mono n i h
  simp only [List.length_append, List.length_replicate, FormatUint_length]
  omega

/-- Claim C2. Listing the root of an image with bounds `Min = (0, 0)`,
`Max = (W, H)` gives exactly `H` entries; the entry at position `i` is a
directory named `row` followed by `i` in decimal, padded on the left with
zeros to `digitCount H` characters. -/
theorem C2_list_root (d : Dir) (W H : Nat) (hroot : d.dirType = .root)
    (hmin : d.img.Bounds.Min = { X := 0, Y := 0 })
    (hmax : d.img.Bounds.Max = { X := (W : Int), Y := (H : Int) }) :
    d.ReadDirAll.length = H ∧
    ∀ i, i < H →
      d.ReadDirAll[i]? = some
        { Name := "row".toList ++
            (List.replicate (digitCount H - digitCount i) '0' ++ FormatUint i),
          Typ := .DT_Dir } ∧
      (List.replicate (digitCount H - digitCount i) '0' ++ FormatUint i).length
        = digitCount H := by
  have hl : d.ReadDirAll = (List.range H).map fun (k : Nat) =>
      ({ Name := "row".toList ++
            (List.replicate (digitCount H - digitCount k) '0' ++ FormatUint k),
         Typ := .DT_Dir } : Dirent) := by
    simp only [Dir.ReadDirAll, hroot, hmin, hmax, Itoa_natCast, FormatUint_length]
    rw [forRange_zero]
    exact List.map_congr_left fun k _ => by rw [SprintfZeroPad_natCast]
  refine ⟨by simp [hl], fun i hi => ⟨?_, padded_length H i (Nat.le_of_lt hi)⟩⟩
  rw [hl]
  simp [List.getElem?_map, List.getElem?_range hi]

/-- Claim C2 at the image of 12 columns and 101 rows: 101 entries, the one at
position 7 is the directory `row007`. -/
theorem C2_list_root_witness :
    ({ img := wideImage, dirType := .root, value := [] } : Dir).ReadDirAll.length = 101 ∧
    ({ img := wideImage, dirType := .root, value := [] } : Dir).ReadDirAll[7]? =
      some { Name := "row007".toList, Typ := .DT_Dir } :=
  ⟨(C2_list_root { img := wideImage, dirType := .root, value := [] } 12 101 rfl rfl rfl).1,
   ((C2_list_root { img := wideImage, dirType := .root, value := [] } 12 101 rfl rfl rfl).2 7
      (by decide)).1⟩

/-- Claim C3. Listing a row directory of an image with bounds `Min = (0, 0)`,
`Max = (W, H)` gives exactly `W` entries; the entry at position `j` is a
directory named `col` followed by `j` in decimal, padded on the left with
zeros to `digitCount W` characters; any two row directories of the same image
have the same listing, whatever their index lists. -/
theorem C3_list_row (d : Dir) (W H : Nat) (hrow : d.dirType = .row)
    (hmin : d.img.Bounds.Min = { X := 0, Y := 0 })
    (hmax : d.img.Bounds.Max = { X := (W : Int), Y := (H : Int) }) :
    d.ReadDirAll.length = W ∧
    (∀ j, j < W →
      d.ReadDirAll[j]? = some
        { Name := "col".toList ++
            (List.replicate (digitCount W - digitCount j) '0' ++ FormatUint j),
          Typ := .DT_Dir } ∧
      (List.replicate (digitCount W - digitCount j) '0' ++ FormatUint j).length
        = digitCount W) ∧
    ∀ value : List Int,
      ({ img := d.img, dirType := .row, value := value } : Dir).ReadDirAll = d.ReadDirAll := by
  have hl : d.ReadDirAll = (List.range W).map fun (k : Nat) =>
      ({ Name := "col".toList ++
            (List.replicate (digitCount W - digitCount k) '0' ++ FormatUint k),
         Typ := .DT_Dir } : Dirent) := by
    simp only [Dir.ReadDirAll, hrow, hmin, hmax, Itoa_natCast, FormatUint_length]
    rw [forRange_zero]
    exact List.map_congr_left fun k _ => by rw [SprintfZeroPad_natCast]
  refine ⟨by simp [hl], fun j hj => ⟨?_, padded_length W j (Nat.le_of_lt hj)⟩, ?_⟩
  · rw [hl]
    simp [List.getElem?_map, List.getElem?_range hj]
  · intro value
    simp only [Dir.ReadDirAll, hrow]

/-- Claim C3 at the image of 12 columns and 101 rows, row 5: 12 entries, the
one at position 3 is the directory `col03`. -/
theorem C3_list_row_witness :
    ({ img := wideImage, dirType := .row, value := [5] } : Dir).ReadDirAll.length = 12 ∧
    ({ img := wideImage, dirType := .row, value := [5] } : Dir).ReadDirAll[3]? =
      some { Name := "col03".toList, Typ := .DT_Dir } :=
  ⟨(C3_list_row { img := wideImage, dirType := .row, value := [5] } 12 101 rfl rfl rfl).1,
   ((C3_list_row { img := wideImage, dirType := .row, value := [5] } 12 101 rfl rfl rfl).2.1 3
      (by decide)).1⟩

/-! ## Looking a name up -/

/-- A string starts with what it was built from. -/
theorem HasPrefix_append (p s : GoString) : HasPrefix (p ++ s) p = true := by
  simp [HasPrefix]

/-- Trimming the leading part of a concatenation leaves the rest. -/
theorem TrimPrefix_append (p s : GoString) : TrimPrefix (p ++ s) p = s := by
  simp [TrimPrefix, HasPrefix_append]

/-- The function `Atoi` reports a range error on the rendering of a number
from `2^63` on. -/
theorem Atoi_FormatUint_big (n : Nat) (h : intCutoff ≤ n) :
    Atoi (FormatUint n) = .error .numRangeErr := by
  obtain ⟨d, cs, hd, hcs⟩ := FormatUint_head n
  rw [hcs, Atoi_digit_head d hd cs, ← hcs, parseUint_FormatUint]
  by_cases h2 : n < uintCutoff
  · simp [h2, Nat.not_lt.mpr h]
  · simp [h2]

/-- What the root does with the name `row` followed by the decimal rendering
of `n`: not found when `n` exceeds `Max.Y` (or the range of `int`), the row
directory `n` otherwise. -/
theorem lookup_root_row (d : Dir) (n : Nat) (hroot : d.dirType = .root) :
    d.Lookup ("row".toList ++ FormatUint n) =
      if n < intCutoff ∧ (n : Int) ≤ d.img.Bounds.Max.Y then
        .ok (.dir { img := d.img, dirType := .row, value := [(n : Int)] })
      else .error .ENOENT := by
  simp only [Dir.Lookup, hroot, HasPrefix_append, TrimPrefix_append, if_true]
  by_cases hn : n < intCutoff
  · rw [Atoi_FormatUint n hn]
    by_cases hy : (n : Int) ≤ d.img.Bounds.Max.Y
    · simp [hn, hy]
    · simp [hn, hy, Int.not_le.mp hy]
  · rw [Atoi_FormatUint_big n (Nat.not_lt.mp hn)]
    simp [hn]

/-- What a row directory does with the name `col` followed by the decimal
rendering of `n`: not found when `n` exceeds `Max.X` (or the range of `int`),
the pixel directory with `n` appended to the index list otherwise. -/
theorem lookup_row_col (d : Dir) (n : Nat) (hrow : d.dirType = .row) :
    d.Lookup ("col".toList ++ FormatUint n) =
      if n < intCutoff ∧ (n : Int) ≤ d.img.Bounds.Max.X then
        .ok (.dir { img := d.img, dirType := .pixel, value := d.value ++ [(n : Int)] })
      else .error .ENOENT := by
  simp only [Dir.Lookup, hrow, HasPrefix_append, TrimPrefix_append, if_true]
  by_cases hn : n < intCutoff
  · rw [Atoi_FormatUint n hn]
    by_cases hy : (n : Int) ≤ d.img.Bounds.Max.X
    · simp [hn, hy]
    · simp [hn, hy, Int.not_le.mp hy]
  · rw [Atoi_FormatUint_big n (Nat.not_lt.mp hn)]
    simp [hn]

/-- The rendering of a negative number: a minus sign, then the magnitude. -/
theorem Itoa_neg (m : Nat) (hm : 0 < m) : Itoa (-(m : Int)) = '-' :: FormatUint m := by
  have : -(m : Int) < 0 := by omega
  simp [Itoa, this]

/-- Claim C4. The root admits the index one past the last listed row: for an
image of height `H` (with `H` in the range of `int`), looking up `row`
followed by the decimal rendering of `H` succeeds and returns the row
directory with index `H`; only indices above `H` are reported not found. -/
theorem C4_lookup_root_height_admitted (d : Dir) (H : Nat) (hroot : d.dirType = .root)
    (hmax : d.img.Bounds.Max.Y = (H : Int)) (hH : H < 2 ^ 63) :
    d.Lookup ("row".toList ++ Itoa (H : Int)) =
      .ok (.dir { img := d.img, dirType := .row, value := [(H : Int)] }) ∧
    ∀ n : Nat, H < n → d.Lookup ("row".toList ++ Itoa (n : Int)) = .error .ENOENT := by
  constructor
  · have hH2 : H < intCutoff := hH
    rw [Itoa_natCast, lookup_root_row d H hroot, hmax]
    simp [hH2]
  · intro n hn
    rw [Itoa_natCast, lookup_root_row d n hroot, hmax]
    have : ¬ ((n : Int) ≤ (H : Int)) := by omega
    simp [this]

/-- Claim C4 at the 2x1 example image (height 1): the name `row1` resolves to
the row directory with index 1. -/
theorem C4_lookup_root_height_admitted_witness :
    ({ img := exampleImage, dirType := .root, value := [] } : Dir).Lookup "row1".toList =
      .ok (.dir { img := exampleImage, dirType := .row, value := [1] }) :=
  (C4_lookup_root_height_admitted { img := exampleImage, dirType := .root, value := [] } 1
    rfl rfl (by decide)).1

/-- Claim C5. The root admits negative indices: for an image whose `Max.Y` is
not negative and every negative `n` in the range of `int`, looking up `row`
followed by the decimal rendering of `n` succeeds and returns a row directory
with index `n`. -/
theorem C5_lookup_root_negative_admitted (d : Dir) (n : Int) (hroot : d.dirType = .root)
    (hmax : 0 ≤ d.img.Bounds.Max.Y) (hneg : n < 0) (hlo : -(2 ^ 63 : Int) ≤ n) :
    d.Lookup ("row".toList ++ Itoa n) =
      .ok (.dir { img := d.img, dirType := .row, value := [n] }) := by
  obtain ⟨m, rfl⟩ : ∃ m : Nat, n = -(m : Int) := ⟨n.natAbs, by omega⟩
  have hm : 0 < m := by omega
  have hle : m ≤ intCutoff := by
    have : (m : Int) ≤ 2 ^ 63 := by omega
    unfold intCutoff
    exact_mod_cast this
  rw [Itoa_neg m hm]
  simp only [Dir.Lookup, hroot, HasPrefix_append, TrimPrefix_append, if_true]
  rw [Atoi_neg_FormatUint m hle]
  have : ¬ (-(m : Int) > d.img.Bounds.Max.Y) := by omega
  simp [this]

/-- Claim C5 at the 2x1 example image: the name `row-1` resolves to a row
directory with index -1. -/
theorem C5_lookup_root_negative_admitted_witness :
    ({ img := exampleImage, dirType := .root, value := [] } : Dir).Lookup "row-1".toList =
      .ok (.dir { img := exampleImage, dirType := .row, value := [-1] }) := by
  have h := C5_lookup_root_negative_admitted
    { img := exampleImage, dirType := .root, value := [] } (-1) rfl (by decide) (by decide)
    (by decide)
  have e : "row".toList ++ Itoa (-1) = "row-1".toList := by decide
  rw [e] at h
  exact h

/-- Claim C6. What a row directory with index `y` does with column names, for
an image of width `W` in the range of `int`: `col` followed by the decimal
rendering of `c` gives the pixel directory `(y, c)` for `0 ≤ c < W`, and also
for `c = W` and for every negative `c` in the range of `int`; it is not found
for `c > W`, for a name that does not start with `col`, and for a name whose
rest `Atoi` rejects. -/
theorem C6_lookup_row_columns (d : Dir) (y : Int) (W : Nat) (hrow : d.dirType = .row)
    (hval : d.value = [y]) (hmax : d.img.Bounds.Max.X = (W : Int)) (hW : W < 2 ^ 63) :
    (∀ c : Nat, c ≤ W → d.Lookup ("col".toList ++ Itoa (c : Int)) =
        .ok (.dir { img := d.img, dirType := .pixel, value := [y, (c : Int)] })) ∧
    (∀ c : Int, c < 0 → -(2 ^ 63 : Int) ≤ c → d.Lookup ("col".toList ++ Itoa c) =
        .ok (.dir { img := d.img, dirType := .pixel, value := [y, c] })) ∧
    (∀ c : Nat, W < c → d.Lookup ("col".toList ++ Itoa (c : Int)) = .error .ENOENT) ∧
    (∀ name : GoString, HasPrefix name "col".toList = false →
        d.Lookup name = .error .ENOENT) ∧
    (∀ (name : GoString) (e : Err), Atoi (TrimPrefix name "col".toList) = .error e →
        d.Lookup name = .error .ENOENT) := by
  have hW2 : W < intCutoff := hW
  refine ⟨?_, ?_, ?_, ?_, ?_⟩
  · intro c hc
    have hc2 : c < intCutoff := by omega
    have hc3 : (c : Int) ≤ (W : Int) := by omega
    rw [Itoa_natCast, lookup_row_col d c hrow, hmax, hval]
    simp [hc2, hc3]
  · intro c hneg hlo
    obtain ⟨m, rfl⟩ : ∃ m : Nat, c = -(m : Int) := ⟨c.natAbs, by omega⟩
    have hm : 0 < m := by omega
    have hle : m ≤ intCutoff := by
      have : (m : Int) ≤ 2 ^ 63 := by omega
      unfold intCutoff
      exact_mod_cast this
    rw [Itoa_neg m hm]
    simp only [Dir.Lookup, hrow, HasPrefix_append, TrimPrefix_append, if_true]
    rw [Atoi_neg_FormatUint m hle]
    have : ¬ (-(m : Int) > d.img.Bounds.Max.X) := by omega
    simp [this, hval]
  · intro c hc
    rw [Itoa_natCast, lookup_row_col d c hrow, hmax]
    have : ¬ ((c : Int) ≤ (W : Int)) := by omega
    simp [this]
  · intro name hp
    simp only [Dir.Lookup, hrow, hp]
    rfl
  · intro name e he
    simp only [Dir.Lookup, hrow, he]
    split <;> rfl

/-- Claim C6 at the 2x1 example image (width 2), row 0: the name `col2`
resolves to the pixel directory `(0, 2)`. -/
theorem C6_lookup_row_columns_witness :
    ({ img := exampleImage, dirType := .row, value := [0] } : Dir).Lookup "col2".toList =
      .ok (.dir { img := exampleImage, dirType := .pixel, value := [0, 2] }) :=
  (C6_lookup_row_columns { img := exampleImage, dirType := .row, value := [0] } 0 2
    rfl rfl rfl (by decide)).1 2 (by decide)

/-- Claim C7. A pixel directory with indices `(y, x)` resolves exactly the
names `r`, `g` and `b`, each to the channel file of that name at column `x`
and row `y`; every other name is not found. -/
theorem C7_lookup_pixel (img : Image) (y x : Int) (s : GoString) :
    ({ img := img, dirType := .pixel, value := [y, x] } : Dir).Lookup s =
      (if s = "r".toList ∨ s = "g".toList ∨ s = "b".toList then
        .ok (.file { img := img, name := s, x := x, y := y })
      else .error .ENOENT) ∧
    ((∃ node, ({ img := img, dirType := .pixel, value := [y, x] } : Dir).Lookup s = .ok node) ↔
      (s = "r".toList ∨ s = "g".toList ∨ s = "b".toList)) := by
  have h : ({ img := img, dirType := .pixel, value := [y, x] } : Dir).Lookup s =
      (if s = "r".toList ∨ s = "g".toList ∨ s = "b".toList then
        .ok (.file { img := img, name := s, x := x, y := y })
      else .error .ENOENT) := by
    simp only [Dir.Lookup]
    rfl
  refine ⟨h, ?_⟩
  rw [h]
  by_cases hs : s = "r".toList ∨ s = "g".toList ∨ s = "b".toList
  · simp only [hs, if_true, iff_true]
    exact ⟨_, rfl⟩
  · simp only [hs, if_false, iff_false]
    rintro ⟨node, hn⟩
    cases hn

/-! ## Channel files and read sessions -/

/-- The content of a channel file named `r`, `g` or `b`: `getContents`
succeeds with the text of the channel's sample. -/
theorem getContents_channel (img : Image) (x y : Int) (c : GoString)
    (hc : c = "r".toList ∨ c = "g".toList ∨ c = "b".toList) :
    ({ img := img, name := c, x := x, y := y } : File).getContents =
      .ok (channelText (sampleOf (img.At x y) c)) := by
  rcases hc with rfl | rfl | rfl <;> rfl

/-- What one call of `FileHandle.Read` does to a session with buffer `B` and
cursor `k` when `n` bytes are asked for: with `m = min n (|B| - k)`, the cursor
moves by `m`, the data is `B[k .. k + m)` followed by `n - m` zero bytes, and
the error is `io.EOF` exactly when the cursor was at the end. -/
theorem FileHandle_Read_eq (B : GoString) (k n : Nat) :
    FileHandle.Read { r := { s := B, i := k } } n =
      ({ r := { s := B, i := k + min n (B.length - k) } },
       (B.drop k).take (min n (B.length - k)) ++
         List.replicate (n - min n (B.length - k)) zeroByte,
       if B.length ≤ k then some .EOF else none) := by
  by_cases hk : B.length ≤ k
  · have h0 : B.length - k = 0 := by omega
    simp [FileHandle.Read, Reader.Read, hk, h0]
  · simp [FileHandle.Read, Reader.Read, hk, copyBytes]

/-- The text of a channel is never empty: it ends in a newline. -/
theorem channelText_length (v : Nat) : (channelText v).length = digitCount (v >>> 8) + 1 := by
  simp [channelText, FormatUint_length]

/-- One `Read` of `n` bytes from a fresh session over a non-empty text `T`:
the cursor moves to `min n |T|`, the data is the first `n` bytes of `T`
followed by `n - |T|` zero bytes, and there is no error. -/
theorem read_fresh (T : GoString) (n : Nat) (hT : 0 < T.length) :
    FileHandle.Read { r := { s := T, i := 0 } } n =
      ({ r := { s := T, i := min n T.length } },
       T.take n ++ List.replicate (n - T.length) zeroByte, none) := by
  rw [FileHandle_Read_eq]
  have h2 : ¬ T.length ≤ 0 := by omega
  simp only [Nat.sub_zero, List.drop_zero, Nat.zero_add, if_neg h2]
  by_cases h : n ≤ T.length
  · have e1 : n - T.length = 0 := by omega
    rw [Nat.min_eq_left h, Nat.sub_self, e1]
  · have h3 : T.length ≤ n := by omega
    rw [Nat.min_eq_right h3, List.take_length, List.take_of_length_le h3]

/-- Claim C1. Opening the channel file `c` (one of `r`, `g`, `b`) at `(x, y)`
gives a fresh session that holds exactly the decimal rendering of
`sample16 >> 8` followed by one newline, at cursor 0.  One `Read` of `n` bytes
from it returns no error and, as data, the first `n` bytes of that text
followed by zero bytes up to `n` bytes in all: with room for more than the
text (`n` above its length) the data is the text and then `n - length` zero
bytes, not exactly the text. -/
theorem C1_open_then_read (img : Image) (x y : Int) (c : GoString) (n : Nat)
    (hc : c = "r".toList ∨ c = "g".toList ∨ c = "b".toList) :
    ∃ fh : FileHandle,
      ({ img := img, name := c, x := x, y := y } : File).Open = .ok fh ∧
      fh = { r := { s := channelText (sampleOf (img.At x y) c), i := 0 } } ∧
      fh.Read n =
        ({ r := { s := channelText (sampleOf (img.At x y) c),
                  i := min n (channelText (sampleOf (img.At x y) c)).length } },
         (channelText (sampleOf (img.At x y) c)).take n ++
           List.replicate (n - (channelText (sampleOf (img.At x y) c)).length) zeroByte,
         none) ∧
      ((channelText (sampleOf (img.At x y) c)).length < n →
        (fh.Read n).2.1 = channelText (sampleOf (img.At x y) c) ++
          List.replicate (n - (channelText (sampleOf (img.At x y) c)).length) zeroByte ∧
        (fh.Read n).2.1.length = n ∧
        (fh.Read n).2.1 ≠ channelText (sampleOf (img.At x y) c)) := by
  have hlen := channelText_length (sampleOf (img.At x y) c)
  have h2 : ¬ (channelText (sampleOf (img.At x y) c)).length ≤ 0 := by omega
  have hread := read_fresh (channelText (sampleOf (img.At x y) c)) n (by omega)
  refine ⟨_, ?_, rfl, hread, ?_⟩
  · simp only [File.Open, getContents_channel img x y c hc]
    rfl
  · intro hn
    rw [hread]
    have htake : (channelText (sampleOf (img.At x y) c)).take n =
        channelText (sampleOf (img.At x y) c) := List.take_of_length_le (Nat.le_of_lt hn)
    rw [htake]
    refine ⟨rfl, ?_, ?_⟩
    · simp only [List.length_append, List.length_replicate]
      omega
    · intro heq
      have := congrArg List.length heq
      simp only [List.length_append, List.length_replicate] at this
      omega

/-- Claim C1 at the example image, channel `r` of the pixel `(0, 0)` with
sample `0xFFFF`, read with 4096 bytes of room: the session holds `255` and a
newline, and the data is these four bytes followed by 4092 zero bytes. -/
theorem C1_open_then_read_witness :
    ∃ fh : FileHandle,
      ({ img := exampleImage, name := "r".toList, x := 0, y := 0 } : File).Open = .ok fh ∧
      fh = { r := { s := "255\n".toList, i := 0 } } ∧
      (fh.Read 4096).2.1 = "255\n".toList ++ List.replicate 4092 zeroByte ∧
      (fh.Read 4096).2.1.length = 4096 ∧
      (fh.Read 4096).2.1 ≠ "255\n".toList := by
  obtain ⟨fh, h1, h2, _, h4⟩ :=
    C1_open_then_read exampleImage 0 0 "r".toList 4096 (Or.inl rfl)
  exact ⟨fh, h1, h2, h4 (by decide)⟩

/-- Claim C8. The data of `FileHandle.Read` is the whole buffer of `n` bytes
the call allocates, not only the bytes read: with `m = min n (|B| - k)` it is
`B[k .. k + m)` followed by `n - m` zero bytes, and the cursor moves by `m`. -/
theorem C8_read_data_is_whole_buffer (B : GoString) (k n : Nat) :
    (FileHandle.Read { r := { s := B, i := k } } n).2.1.length = n ∧
    (FileHandle.Read { r := { s := B, i := k } } n).2.1 =
      (B.drop k).take (min n (B.length - k)) ++
        List.replicate (n - min n (B.length - k)) zeroByte ∧
    (FileHandle.Read { r := { s := B, i := k } } n).1 =
      { r := { s := B, i := k + min n (B.length - k) } } := by
  rw [FileHandle_Read_eq]
  refine ⟨?_, rfl, rfl⟩
  simp only [List.length_append, List.length_take, List.length_drop, List.length_replicate]
  omega

/-- Claim C8 at the session with buffer `255` and a newline, cursor 0, asked
for 8 bytes: the data has 8 bytes, the four of the buffer and four zero bytes,
and the cursor moves by 4. -/
theorem C8_read_data_is_whole_buffer_witness :
    (FileHandle.Read { r := { s := "255\n".toList, i := 0 } } 8).2.1.length = 8 ∧
    (FileHandle.Read { r := { s := "255\n".toList, i := 0 } } 8).2.1 =
      "255\n".toList ++ [zeroByte, zeroByte, zeroByte, zeroByte] ∧
    (FileHandle.Read { r := { s := "255\n".toList, i := 0 } } 8).1 =
      { r := { s := "255\n".toList, i := 4 } } :=
  ⟨(C8_read_data_is_whole_buffer "255\n".toList 0 8).1, by decide, by decide⟩

/-- Claim C9. At the end of the buffer `FileHandle.Read` returns the error
`io.EOF`, leaves the session as it is, and its data is `n` zero bytes. -/
theorem C9_read_at_end (B : GoString) (k n : Nat) (hk : B.length ≤ k) :
    FileHandle.Read { r := { s := B, i := k } } n =
      ({ r := { s := B, i := k } }, List.replicate n zeroByte, some .EOF) := by
  rw [FileHandle_Read_eq]
  have h0 : B.length - k = 0 := by omega
  simp [h0, hk]

/-- Claim C9 at the session with buffer `0` and a newline, cursor 2 (the
end), asked for 4 bytes: the error is `io.EOF` and the data four zero bytes. -/
theorem C9_read_at_end_witness :
    FileHandle.Read { r := { s := "0\n".toList, i := 2 } } 4 =
      ({ r := { s := "0\n".toList, i := 2 } },
       [zeroByte, zeroByte, zeroByte, zeroByte], some .EOF) :=
  C9_read_at_end "0\n".toList 2 4 (by decide)

/-- Claim C10. On a channel file named `r`, `g` or `b`, `File.Attr` succeeds:
it sets the mode to `0644`, a regular file with these permission bits, and the
size to the length of the string `File.getContents` returns for the file,
which is the string a session opened on the file holds. -/
theorem C10_attr_size (f : File) (a : Attr)
    (hc : f.name = "r".toList ∨ f.name = "g".toList ∨ f.name = "b".toList) :
    ∃ colStr : GoString,
      f.getContents = .ok colStr ∧
      f.Attr a = .ok { Size := colStr.length, Mode := 0o644 } ∧
      IsRegular 0o644 = true ∧ Perm 0o644 = 0o644 ∧
      f.Open = .ok { r := { s := colStr, i := 0 } } := by
  have h := getContents_channel f.img f.x f.y f.name hc
  refine ⟨channelText (sampleOf (f.img.At f.x f.y) f.name), h, ?_, by decide, by decide, ?_⟩
  · have e : f.getContents =
        .ok (channelText (sampleOf (f.img.At f.x f.y) f.name)) := h
    simp only [File.Attr, e]
  · have e : f.getContents =
        .ok (channelText (sampleOf (f.img.At f.x f.y) f.name)) := h
    simp only [File.Open, e]
    rfl

/-- Claim C10 at the example image, channel `b` of the pixel `(0, 0)` with
sample `0x8000`: the content is `128` and a newline, the size 4. -/
theorem C10_attr_size_witness :
    ∃ colStr : GoString,
      ({ img := exampleImage, name := "b".toList, x := 0, y := 0 } : File).getContents =
        .ok colStr ∧
      ({ img := exampleImage, name := "b".toList, x := 0, y := 0 } : File).Attr
        { Size := 0, Mode := 0 } = .ok { Size := colStr.length, Mode := 0o644 } ∧
      IsRegular 0o644 = true ∧ Perm 0o644 = 0o644 ∧
      ({ img := exampleImage, name := "b".toList, x := 0, y := 0 } : File).Open =
        .ok { r := { s := colStr, i := 0 } } :=
  C10_attr_size { img := exampleImage, name := "b".toList, x := 0, y := 0 }
    { Size := 0, Mode := 0 } (Or.inr (Or.inr rfl))

/-! ## More on listing and lookup -/

/-- Claim C11. Listing a pixel directory, whatever its indices and whatever
the image, gives exactly three entries, named `r`, `g`, `b` in that order,
each of file type. -/
theorem C11_list_pixel (img : Image) (value : List Int) :
    ({ img := img, dirType := .pixel, value := value } : Dir).ReadDirAll =
      [ { Name := ['r'], Typ := .DT_File },
        { Name := ['g'], Typ := .DT_File },
        { Name := ['b'], Typ := .DT_File } ] ∧
    ({ img := img, dirType := .pixel, value := value } : Dir).ReadDirAll.length = 3 ∧
    ∀ e ∈ ({ img := img, dirType := .pixel, value := value } : Dir).ReadDirAll,
      e.Typ = .DT_File ∧ e.Typ ≠ .DT_Dir := by
  refine ⟨rfl, rfl, ?_⟩
  intro e he
  simp only [Dir.ReadDirAll, List.mem_cons, List.mem_singleton, List.not_mem_nil, or_false] at he
  rcases he with rfl | rfl | rfl <;> exact ⟨rfl, by decide⟩

/-- A byte that is not a decimal digit has no digit value. -/
theorem digitValue_of_not_digit (c : Char) (h : isDigitByte c = false) :
    digitValue c = none := by
  have hc : ¬ (48 ≤ c.toNat ∧ c.toNat ≤ 57) := by
    intro ⟨h1, h2⟩
    have a1 : '0' ≤ c := h1
    have a2 : c ≤ '9' := h2
    simp [isDigitByte, a1, a2] at h
  simp [digitValue, hc]

/-- The digit loop fails on a string that holds a byte that is not a digit. -/
theorem parseDigits_of_not_digits (s : GoString) :
    ∀ acc, s.all isDigitByte = false → parseDigits s acc = none := by
  induction s with
  | nil => intro acc h; simp at h
  | cons c cs ih =>
    intro acc h
    simp only [parseDigits]
    cases hc : isDigitByte c with
    | false => rw [digitValue_of_not_digit c hc]
    | true =>
      have hcs : cs.all isDigitByte = false := by
        simpa [List.all_cons, hc] using h
      cases digitValue c with
      | none => rfl
      | some d => exact ih _ hcs

/-- The magnitude part fails on what is not a non-empty string of digits. -/
theorem parseMagnitude_of_not_digits (s : GoString) (h : isDigitString s = false) :
    ∃ err, parseMagnitude s = .error err := by
  cases s with
  | nil => exact ⟨_, rfl⟩
  | cons c cs =>
    have h2 : (c :: cs).all isDigitByte = false := by
      simpa [isDigitString] using h
    exact parseUint_of_parseDigits_none (c :: cs) 0 (parseDigits_of_not_digits (c :: cs) 0 h2)

/-- The function `Atoi` reports an error on every string that is not written
as a decimal integer. -/
theorem Atoi_of_not_decimal (s : GoString) (h : isDecimalInteger s = false) :
    ∃ err, Atoi s = .error err := by
  unfold isDecimalInteger at h
  unfold Atoi
  split
  · exact ⟨_, rfl⟩
  · next rest =>
    simp only at h
    obtain ⟨err, he⟩ := parseMagnitude_of_not_digits rest h
    rw [he]
    exact ⟨_, rfl⟩
  · next rest =>
    simp only at h
    obtain ⟨err, he⟩ := parseMagnitude_of_not_digits rest h
    rw [he]
    exact ⟨_, rfl⟩
  · next h1 h2 h3 =>
    have h4 : isDigitString s = false := by
      split at h
      · exact absurd rfl (h2 _)
      · exact absurd rfl (h3 _)
      · exact h
    obtain ⟨err, he⟩ := parseMagnitude_of_not_digits s h4
    rw [he]
    exact ⟨_, rfl⟩

/-- Claim C12. On the root, every name that is not `row` followed by a decimal
integer (it does not start with `row`, or what follows `row` is not an
optional sign and one or more digits) is not found, and no node is
returned. -/
theorem C12_lookup_root_not_row_name (d : Dir) (s : GoString) (hroot : d.dirType = .root)
    (h : HasPrefix s "row".toList = false ∨ isDecimalInteger (s.drop 3) = false) :
    d.Lookup s = .error .ENOENT ∧ ∀ node, d.Lookup s ≠ .ok node := by
  have hl : d.Lookup s = .error .ENOENT := by
    simp only [Dir.Lookup, hroot]
    cases hp : HasPrefix s "row".toList with
    | false => rfl
    | true =>
      rcases h with h | h
      · rw [hp] at h; cases h
      · have ht : TrimPrefix s "row".toList = s.drop 3 := by
          simp only [TrimPrefix, hp, if_true]
          rfl
        obtain ⟨err, he⟩ := Atoi_of_not_decimal _ h
        rw [ht, he]
        rfl
  refine ⟨hl, ?_⟩
  intro node hn
  rw [hl] at hn
  cases hn

/-- Claim C12 at the example image: the names `rowabc`, `row1x`, `row` and
`col0` are not found on the root. -/
theorem C12_lookup_root_not_row_name_witness :
    ({ img := exampleImage, dirType := .root, value := [] } : Dir).Lookup "rowabc".toList =
      .error .ENOENT ∧
    ({ img := exampleImage, dirType := .root, value := [] } : Dir).Lookup "row1x".toList =
      .error .ENOENT ∧
    ({ img := exampleImage, dirType := .root, value := [] } : Dir).Lookup "row".toList =
      .error .ENOENT ∧
    ({ img := exampleImage, dirType := .root, value := [] } : Dir).Lookup "col0".toList =
      .error .ENOENT :=
  ⟨(C12_lookup_root_not_row_name { img := exampleImage, dirType := .root, value := [] }
      "rowabc".toList rfl (Or.inr (by decide))).1,
   (C12_lookup_root_not_row_name { img := exampleImage, dirType := .root, value := [] }
      "row1x".toList rfl (Or.inr (by decide))).1,
   (C12_lookup_root_not_row_name { img := exampleImage, dirType := .root, value := [] }
      "row".toList rfl (Or.inr (by decide))).1,
   (C12_lookup_root_not_row_name { img := exampleImage, dirType := .root, value := [] }
      "col0".toList rfl (Or.inl (by decide))).1⟩

/-- Claim C16. Every file `Dir.Lookup` returns is named `r`, `g` or `b`, so on
it `File.getContents`, `File.Attr` and `File.Open` all succeed: the branch of
`getContents` for an invalid name is not reached. -/
theorem C16_resolved_file_succeeds (d : Dir) (name : GoString) (f : File) (a : Attr)
    (h : d.Lookup name = .ok (.file f)) :
    (f.name = "r".toList ∨ f.name = "g".toList ∨ f.name = "b".toList) ∧
    (∃ colStr, f.getContents = .ok colStr) ∧
    (∃ a1, f.Attr a = .ok a1) ∧
    (∃ fh, f.Open = .ok fh) ∧
    (∀ bad, f.getContents ≠ .error (.invalidFilename bad)) := by
  have hname : f.name = "r".toList ∨ f.name = "g".toList ∨ f.name = "b".toList := by
    unfold Dir.Lookup at h
    split at h
    · split at h
      · split at h
        · cases h
        · split at h <;> cases h
      · cases h
    · split at h
      · split at h
        · cases h
        · split at h <;> cases h
      · cases h
    · split at h
      · next hn =>
        split at h
        · simp only [Except.ok.injEq, Node.file.injEq] at h
          rw [← h]
          exact hn
        · cases h
      · cases h
  have hc := getContents_channel f.img f.x f.y f.name hname
  have e : f.getContents = .ok (channelText (sampleOf (f.img.At f.x f.y) f.name)) := hc
  refine ⟨hname, ⟨_, e⟩, ?_, ?_, ?_⟩
  · exact ⟨{ Size := (channelText (sampleOf (f.img.At f.x f.y) f.name)).length,
             Mode := 0o644 }, by simp only [File.Attr, e]⟩
  · exact ⟨{ r := NewReader (channelText (sampleOf (f.img.At f.x f.y) f.name)) },
      by simp only [File.Open, e]⟩
  · intro bad hb
    rw [e] at hb
    cases hb

/-- Claim C16 at the example image: the file the pixel directory `(0, 0)`
returns for the name `g` has content, attributes and a session. -/
theorem C16_resolved_file_succeeds_witness :
    (∃ colStr, ({ img := exampleImage, name := "g".toList, x := 0, y := 0 } : File).getContents
        = .ok colStr) ∧
    (∃ a1, ({ img := exampleImage, name := "g".toList, x := 0, y := 0 } : File).Attr
        { Size := 0, Mode := 0 } = .ok a1) ∧
    (∃ fh, ({ img := exampleImage, name := "g".toList, x := 0, y := 0 } : File).Open
        = .ok fh) :=
  ⟨(C16_resolved_file_succeeds { img := exampleImage, dirType := .pixel, value := [0, 0] }
      "g".toList { img := exampleImage, name := "g".toList, x := 0, y := 0 }
      { Size := 0, Mode := 0 } rfl).2.1,
   (C16_resolved_file_succeeds { img := exampleImage, dirType := .pixel, value := [0, 0] }
      "g".toList { img := exampleImage, name := "g".toList, x := 0, y := 0 }
      { Size := 0, Mode := 0 } rfl).2.2.1,
   (C16_resolved_file_succeeds { img := exampleImage, dirType := .pixel, value := [0, 0] }
      "g".toList { img := exampleImage, name := "g".toList, x := 0, y := 0 }
      { Size := 0, Mode := 0 } rfl).2.2.2.1⟩

/-! ## Reading padded and signed names back -/

/-- Leading zeros do not change what the digit loop reads. -/
theorem parseDigits_zeros (k : Nat) (s : GoString) :
    parseDigits (List.replicate k '0' ++ s) 0 = parseDigits s 0 := by
  induction k with
  | zero => rfl
  | succ k ih =>
    rw [List.replicate_succ, List.cons_append, parseDigits]
    have h0 : digitValue '0' = some 0 := rfl
    rw [h0]
    exact ih

/-- The digit loop reads zeros followed by the rendering of `n` as `n`. -/
theorem parseDigits_zeros_FormatUint (k n : Nat) :
    parseDigits (List.replicate k '0' ++ FormatUint n) 0 = some n := by
  rw [parseDigits_zeros, parseDigits_FormatUint]

/-- The bounded loop reads zeros followed by the rendering of `n` as `n` when
it fits a `uint64`, and reports a range error otherwise. -/
theorem parseUint_zeros_FormatUint (k n : Nat) :
    parseUint (List.replicate k '0' ++ FormatUint n) 0 =
      if n < uintCutoff then .ok n else .error .numRangeErr :=
  parseUint_of_parseDigits _ 0 n (by decide) (parseDigits_zeros_FormatUint k n)

/-- Zeros followed by the rendering of `n` start with a digit. -/
theorem zeros_FormatUint_head (k n : Nat) :
    ∃ d cs, d < 10 ∧ List.replicate k '0' ++ FormatUint n = digitChar d :: cs := by
  cases k with
  | zero =>
    obtain ⟨d, cs, hd, hcs⟩ := FormatUint_head n
    exact ⟨d, cs, hd, by simpa using hcs⟩
  | succ k =>
    exact ⟨0, List.replicate k '0' ++ FormatUint n, by decide, by
      rw [List.replicate_succ, List.cons_append]; rfl⟩

/-- What `Atoi` makes of zeros followed by the rendering of `n`: the number
`n` when it fits an `int`, a range error otherwise. -/
theorem Atoi_zeros_FormatUint (k n : Nat) :
    Atoi (List.replicate k '0' ++ FormatUint n) =
      if n < intCutoff then .ok (n : Int) else .error .numRangeErr := by
  obtain ⟨d, cs, hd, hcs⟩ := zeros_FormatUint_head k n
  rw [hcs, Atoi_digit_head d hd cs, ← hcs, parseUint_zeros_FormatUint]
  by_cases h2 : n < uintCutoff
  · simp only [h2, if_true]
  · have h3 : ¬ n < intCutoff := by
      unfold uintCutoff at h2; unfold intCutoff; omega
    simp only [h2, h3, if_false]

/-- What `Atoi` makes of a plus sign, zeros and the rendering of `n`. -/
theorem Atoi_plus_zeros_FormatUint (k n : Nat) :
    Atoi ('+' :: (List.replicate k '0' ++ FormatUint n)) =
      if n < intCutoff then .ok (n : Int) else .error .numRangeErr := by
  obtain ⟨d, cs, _, hcs⟩ := zeros_FormatUint_head k n
  have hp : parseMagnitude (List.replicate k '0' ++ FormatUint n) =
      if n < uintCutoff then .ok n else .error .numRangeErr := by
    rw [parseMagnitude, hcs, ← hcs]
    · exact parseUint_zeros_FormatUint k n
    · intro hnil; simp [hcs] at hnil
  simp only [Atoi, hp]
  by_cases h2 : n < uintCutoff
  · simp only [h2, if_true]
  · have h3 : ¬ n < intCutoff := by
      unfold uintCutoff at h2; unfold intCutoff; omega
    simp only [h2, h3, if_false]

/-- What the root does with `row`, zeros and the decimal rendering of `n`. -/
theorem lookup_root_padded (d : Dir) (k n : Nat) (hroot : d.dirType = .root) :
    d.Lookup ("row".toList ++ (List.replicate k '0' ++ FormatUint n)) =
      if n < intCutoff ∧ (n : Int) ≤ d.img.Bounds.Max.Y then
        .ok (.dir { img := d.img, dirType := .row, value := [(n : Int)] })
      else .error .ENOENT := by
  simp only [Dir.Lookup, hroot, HasPrefix_append, TrimPrefix_append, if_true]
  rw [Atoi_zeros_FormatUint]
  by_cases hn : n < intCutoff
  · by_cases hy : (n : Int) ≤ d.img.Bounds.Max.Y
    · simp [hn, hy]
    · simp [hn, hy, Int.not_le.mp hy]
  · simp [hn]

/-- What a row directory does with `col`, zeros and the decimal rendering of
`n`. -/
theorem lookup_row_padded (d : Dir) (k n : Nat) (hrow : d.dirType = .row) :
    d.Lookup ("col".toList ++ (List.replicate k '0' ++ FormatUint n)) =
      if n < intCutoff ∧ (n : Int) ≤ d.img.Bounds.Max.X then
        .ok (.dir { img := d.img, dirType := .pixel, value := d.value ++ [(n : Int)] })
      else .error .ENOENT := by
  simp only [Dir.Lookup, hrow, HasPrefix_append, TrimPrefix_append, if_true]
  rw [Atoi_zeros_FormatUint]
  by_cases hn : n < intCutoff
  · by_cases hy : (n : Int) ≤ d.img.Bounds.Max.X
    · simp [hn, hy]
    · simp [hn, hy, Int.not_le.mp hy]
  · simp [hn]

/-- What the root does with `row+`, zeros and the decimal rendering of `n`. -/
theorem lookup_root_plus (d : Dir) (k n : Nat) (hroot : d.dirType = .root) :
    d.Lookup ("row".toList ++ '+' :: (List.replicate k '0' ++ FormatUint n)) =
      if n < intCutoff ∧ (n : Int) ≤ d.img.Bounds.Max.Y then
        .ok (.dir { img := d.img, dirType := .row, value := [(n : Int)] })
      else .error .ENOENT := by
  simp only [Dir.Lookup, hroot, HasPrefix_append, TrimPrefix_append, if_true]
  rw [Atoi_plus_zeros_FormatUint]
  by_cases hn : n < intCutoff
  · by_cases hy : (n : Int) ≤ d.img.Bounds.Max.Y
    · simp [hn, hy]
    · simp [hn, hy, Int.not_le.mp hy]
  · simp [hn]

/-- The listing of a root with bounds `Min = (0, 0)`, `Max = (W, H)`, entry by
entry. -/
theorem list_root_eq (d : Dir) (W H : Nat) (hroot : d.dirType = .root)
    (hmin : d.img.Bounds.Min = { X := 0, Y := 0 })
    (hmax : d.img.Bounds.Max = { X := (W : Int), Y := (H : Int) }) :
    d.ReadDirAll = (List.range H).map fun (k : Nat) =>
      ({ Name := "row".toList ++
            (List.replicate (digitCount H - digitCount k) '0' ++ FormatUint k),
         Typ := .DT_Dir } : Dirent) := by
  simp only [Dir.ReadDirAll, hroot, hmin, hmax, Itoa_natCast, FormatUint_length]
  rw [forRange_zero]
  exact List.map_congr_left fun k _ => by rw [SprintfZeroPad_natCast]

/-- The listing of a row directory with bounds `Min = (0, 0)`, `Max = (W, H)`,
entry by entry. -/
theorem list_row_eq (d : Dir) (W H : Nat) (hrow : d.dirType = .row)
    (hmin : d.img.Bounds.Min = { X := 0, Y := 0 })
    (hmax : d.img.Bounds.Max = { X := (W : Int), Y := (H : Int) }) :
    d.ReadDirAll = (List.range W).map fun (k : Nat) =>
      ({ Name := "col".toList ++
            (List.replicate (digitCount W - digitCount k) '0' ++ FormatUint k),
         Typ := .DT_Dir } : Dirent) := by
  simp only [Dir.ReadDirAll, hrow, hmin, hmax, Itoa_natCast, FormatUint_length]
  rw [forRange_zero]
  exact List.map_congr_left fun k _ => by rw [SprintfZeroPad_natCast]

/-- What the root does with `row-` and the decimal rendering of `m`, for a
magnitude `m` up to `2^63`. -/
theorem lookup_root_neg (d : Dir) (m : Nat) (hroot : d.dirType = .root)
    (hm : m ≤ intCutoff) :
    d.Lookup ("row".toList ++ '-' :: FormatUint m) =
      if -(m : Int) > d.img.Bounds.Max.Y then .error .ENOENT
      else .ok (.dir { img := d.img, dirType := .row, value := [-(m : Int)] }) := by
  simp only [Dir.Lookup, hroot, HasPrefix_append, TrimPrefix_append, if_true]
  rw [Atoi_neg_FormatUint m hm]

/-- What a row directory does with `col-` and the decimal rendering of `m`,
for a magnitude `m` up to `2^63`. -/
theorem lookup_row_neg (d : Dir) (m : Nat) (hrow : d.dirType = .row)
    (hm : m ≤ intCutoff) :
    d.Lookup ("col".toList ++ '-' :: FormatUint m) =
      if -(m : Int) > d.img.Bounds.Max.X then .error .ENOENT
      else .ok (.dir { img := d.img, dirType := .pixel, value := d.value ++ [-(m : Int)] }) := by
  simp only [Dir.Lookup, hrow, HasPrefix_append, TrimPrefix_append, if_true]
  rw [Atoi_neg_FormatUint m hm]

/-- Every `int` is zero or more, or the negative of a positive magnitude up
to `2^63`. -/
theorem int_cases_in_range (n : Int) (hlo : -(2 ^ 63 : Int) ≤ n) (hhi : n < 2 ^ 63) :
    (∃ m : Nat, n = (m : Int) ∧ m < intCutoff) ∨
    (∃ m : Nat, n = -(m : Int) ∧ 0 < m ∧ m ≤ intCutoff) := by
  by_cases h : 0 ≤ n
  · left
    refine ⟨n.toNat, by omega, ?_⟩
    have : (n.toNat : Int) < 2 ^ 63 := by omega
    unfold intCutoff
    exact_mod_cast this
  · right
    refine ⟨n.natAbs, by omega, by omega, ?_⟩
    have : (n.natAbs : Int) ≤ 2 ^ 63 := by omega
    unfold intCutoff
    exact_mod_cast this

/-- On the root, the name `row` followed by the decimal rendering of an `int`
`n` is not found exactly when `n` is above `Max.Y`. -/
theorem lookup_root_int (d : Dir) (n : Int) (hroot : d.dirType = .root)
    (hlo : -(2 ^ 63 : Int) ≤ n) (hhi : n < 2 ^ 63) :
    d.Lookup ("row".toList ++ Itoa n) =
      if d.img.Bounds.Max.Y < n then .error .ENOENT
      else .ok (.dir { img := d.img, dirType := .row, value := [n] }) := by
  rcases int_cases_in_range n hlo hhi with ⟨m, rfl, hm⟩ | ⟨m, rfl, hpos, hm⟩
  · rw [Itoa_natCast, lookup_root_row d m hroot]
    by_cases hy : (m : Int) ≤ d.img.Bounds.Max.Y
    · simp [hm, hy, Int.not_lt.mpr hy]
    · simp [hy, Int.not_le.mp hy]
  · rw [Itoa_neg m hpos, lookup_root_neg d m hroot hm]

/-- In a row directory, the name `col` followed by the decimal rendering of an
`int` `n` is not found exactly when `n` is above `Max.X`. -/
theorem lookup_row_int (d : Dir) (n : Int) (hrow : d.dirType = .row)
    (hlo : -(2 ^ 63 : Int) ≤ n) (hhi : n < 2 ^ 63) :
    d.Lookup ("col".toList ++ Itoa n) =
      if d.img.Bounds.Max.X < n then .error .ENOENT
      else .ok (.dir { img := d.img, dirType := .pixel, value := d.value ++ [n] }) := by
  rcases int_cases_in_range n hlo hhi with ⟨m, rfl, hm⟩ | ⟨m, rfl, hpos, hm⟩
  · rw [Itoa_natCast, lookup_row_col d m hrow]
    by_cases hy : (m : Int) ≤ d.img.Bounds.Max.X
    · simp [hm, hy, Int.not_lt.mpr hy]
    · simp [hy, Int.not_le.mp hy]
  · rw [Itoa_neg m hpos, lookup_row_neg d m hrow hm]

/-- A zero-padded rendering of `i` is the plain rendering of `n` only when
`i = n`. -/
theorem padded_eq_FormatUint (k i n : Nat)
    (h : List.replicate k '0' ++ FormatUint i = FormatUint n) : i = n := by
  have h1 := parseDigits_zeros_FormatUint k i
  rw [h, parseDigits_FormatUint] at h1
  exact (Option.some.inj h1).symm

/-- Claim C18. Listing and lookup agree on listed names, for an image with
bounds `Min = (0, 0)`, `Max = (W, H)` in the range of `int`: looking up the
name of the entry at position `i` of the root listing gives the row directory
with index `i`, and looking up the name of the entry at position `j` of the
listing of the row directory `y` gives the pixel directory `(y, j)`. -/
theorem C18_listed_names_resolve (img : Image) (W H : Nat) (y : Int)
    (hmin : img.Bounds.Min = { X := 0, Y := 0 })
    (hmax : img.Bounds.Max = { X := (W : Int), Y := (H : Int) })
    (hW : W < 2 ^ 63) (hH : H < 2 ^ 63) :
    (∀ i, i < H → ∃ e : Dirent,
      ({ img := img, dirType := .root, value := [] } : Dir).ReadDirAll[i]? = some e ∧
      ({ img := img, dirType := .root, value := [] } : Dir).Lookup e.Name =
        .ok (.dir { img := img, dirType := .row, value := [(i : Int)] })) ∧
    (∀ j, j < W → ∃ e : Dirent,
      ({ img := img, dirType := .row, value := [y] } : Dir).ReadDirAll[j]? = some e ∧
      ({ img := img, dirType := .row, value := [y] } : Dir).Lookup e.Name =
        .ok (.dir { img := img, dirType := .pixel, value := [y, (j : Int)] })) := by
  have hW2 : W < intCutoff := hW
  have hH2 : H < intCutoff := hH
  constructor
  · intro i hi
    refine ⟨{ Name := "row".toList ++
                (List.replicate (digitCount H - digitCount i) '0' ++ FormatUint i),
              Typ := .DT_Dir }, ?_, ?_⟩
    · rw [list_root_eq _ W H rfl hmin hmax]
      simp only [List.getElem?_map, List.getElem?_range hi, Option.map_some']
    · rw [lookup_root_padded _ _ i rfl]
      have h1 : i < intCutoff := by omega
      have h2 : (i : Int) ≤ img.Bounds.Max.Y := by rw [hmax]; simp only; omega
      simp only [h1, h2, and_self, if_true]
  · intro j hj
    refine ⟨{ Name := "col".toList ++
                (List.replicate (digitCount W - digitCount j) '0' ++ FormatUint j),
              Typ := .DT_Dir }, ?_, ?_⟩
    · rw [list_row_eq _ W H rfl hmin hmax]
      simp only [List.getElem?_map, List.getElem?_range hj, Option.map_some']
    · rw [lookup_row_padded _ _ j rfl]
      have h1 : j < intCutoff := by omega
      have h2 : (j : Int) ≤ img.Bounds.Max.X := by rw [hmax]; simp only; omega
      simp only [h1, h2, and_self, if_true]
      rfl

/-- Claim C18 at the image of 12 columns and 101 rows: position 7 of the root
listing resolves to row 7, position 3 of the listing of row 5 to the pixel
`(5, 3)`. -/
theorem C18_listed_names_resolve_witness :
    (∃ e : Dirent,
      ({ img := wideImage, dirType := .root, value := [] } : Dir).ReadDirAll[7]? = some e ∧
      ({ img := wideImage, dirType := .root, value := [] } : Dir).Lookup e.Name =
        .ok (.dir { img := wideImage, dirType := .row, value := [7] })) ∧
    (∃ e : Dirent,
      ({ img := wideImage, dirType := .row, value := [5] } : Dir).ReadDirAll[3]? = some e ∧
      ({ img := wideImage, dirType := .row, value := [5] } : Dir).Lookup e.Name =
        .ok (.dir { img := wideImage, dirType := .pixel, value := [5, 3] })) :=
  ⟨(C18_listed_names_resolve wideImage 12 101 5 rfl rfl (by decide) (by decide)).1 7
      (by decide),
   (C18_listed_names_resolve wideImage 12 101 5 rfl rfl (by decide) (by decide)).2 3
      (by decide)⟩

/-- An entry of the root listing is the entry of some index below `H`. -/
theorem mem_list_root (d : Dir) (W H : Nat) (hroot : d.dirType = .root)
    (hmin : d.img.Bounds.Min = { X := 0, Y := 0 })
    (hmax : d.img.Bounds.Max = { X := (W : Int), Y := (H : Int) })
    (e : Dirent) (he : e ∈ d.ReadDirAll) :
    ∃ i, i < H ∧ e =
      { Name := "row".toList ++
          (List.replicate (digitCount H - digitCount i) '0' ++ FormatUint i),
        Typ := .DT_Dir } := by
  rw [list_root_eq d W H hroot hmin hmax] at he
  obtain ⟨i, hi, rfl⟩ := List.mem_map.mp he
  exact ⟨i, List.mem_range.mp hi, rfl⟩

/-- An entry of a row listing is the entry of some index below `W`. -/
theorem mem_list_row (d : Dir) (W H : Nat) (hrow : d.dirType = .row)
    (hmin : d.img.Bounds.Min = { X := 0, Y := 0 })
    (hmax : d.img.Bounds.Max = { X := (W : Int), Y := (H : Int) })
    (e : Dirent) (he : e ∈ d.ReadDirAll) :
    ∃ j, j < W ∧ e =
      { Name := "col".toList ++
          (List.replicate (digitCount W - digitCount j) '0' ++ FormatUint j),
        Typ := .DT_Dir } := by
  rw [list_row_eq d W H hrow hmin hmax] at he
  obtain ⟨j, hj, rfl⟩ := List.mem_map.mp he
  exact ⟨j, List.mem_range.mp hj, rfl⟩

/-- Claim C15. For an image with bounds `Min = (0, 0)`, `Max = (W, H)` in the
range of `int`: the root resolves `row` followed by the decimal rendering of
`H` to the row directory `H`, and a row directory `y` resolves `col` followed
by the decimal rendering of `W` to the pixel directory `(y, W)`; no entry of
the listing of the same directory has that name or resolves to that index;
and a name `row` (`col`) followed by the decimal rendering of an `int` is not
found exactly when the `int` is strictly greater than `H` (`W`). -/
theorem C15_bound_reachable_not_listed (img : Image) (W H : Nat) (y : Int)
    (hmin : img.Bounds.Min = { X := 0, Y := 0 })
    (hmax : img.Bounds.Max = { X := (W : Int), Y := (H : Int) })
    (hW : W < 2 ^ 63) (hH : H < 2 ^ 63) :
    ({ img := img, dirType := .root, value := [] } : Dir).Lookup ("row".toList ++ Itoa (H : Int))
      = .ok (.dir { img := img, dirType := .row, value := [(H : Int)] }) ∧
    ({ img := img, dirType := .row, value := [y] } : Dir).Lookup ("col".toList ++ Itoa (W : Int))
      = .ok (.dir { img := img, dirType := .pixel, value := [y, (W : Int)] }) ∧
    (∀ e ∈ ({ img := img, dirType := .root, value := [] } : Dir).ReadDirAll,
      e.Name ≠ "row".toList ++ Itoa (H : Int) ∧
      ({ img := img, dirType := .root, value := [] } : Dir).Lookup e.Name ≠
        .ok (.dir { img := img, dirType := .row, value := [(H : Int)] })) ∧
    (∀ e ∈ ({ img := img, dirType := .row, value := [y] } : Dir).ReadDirAll,
      e.Name ≠ "col".toList ++ Itoa (W : Int) ∧
      ({ img := img, dirType := .row, value := [y] } : Dir).Lookup e.Name ≠
        .ok (.dir { img := img, dirType := .pixel, value := [y, (W : Int)] })) ∧
    (∀ n : Int, -(2 ^ 63 : Int) ≤ n → n < 2 ^ 63 →
      (({ img := img, dirType := .root, value := [] } : Dir).Lookup ("row".toList ++ Itoa n)
          = .error .ENOENT ↔ (H : Int) < n)) ∧
    (∀ n : Int, -(2 ^ 63 : Int) ≤ n → n < 2 ^ 63 →
      (({ img := img, dirType := .row, value := [y] } : Dir).Lookup ("col".toList ++ Itoa n)
          = .error .ENOENT ↔ (W : Int) < n)) := by
  have hW2 : W < intCutoff := hW
  have hH2 : H < intCutoff := hH
  have hY : img.Bounds.Max.Y = (H : Int) := by rw [hmax]
  have hX : img.Bounds.Max.X = (W : Int) := by rw [hmax]
  refine ⟨?_, ?_, ?_, ?_, ?_, ?_⟩
  · rw [Itoa_natCast, lookup_root_row _ H rfl]
    simp [hH2, hY]
  · rw [Itoa_natCast, lookup_row_col _ W rfl]
    simp [hW2, hX]
  · intro e he
    obtain ⟨i, hi, rfl⟩ := mem_list_root _ W H rfl hmin hmax e he
    constructor
    · intro hname
      rw [Itoa_natCast] at hname
      have := padded_eq_FormatUint _ i H (List.append_cancel_left hname)
      omega
    · rw [lookup_root_padded _ _ i rfl]
      have h1 : i < intCutoff := by omega
      have h2 : (i : Int) ≤ img.Bounds.Max.Y := by omega
      simp only [h1, h2, and_self, if_true]
      intro hEq
      simp only [Except.ok.injEq, Node.dir.injEq, Dir.mk.injEq, List.cons.injEq,
        Nat.cast_inj] at hEq
      omega
  · intro e he
    obtain ⟨j, hj, rfl⟩ := mem_list_row _ W H rfl hmin hmax e he
    constructor
    · intro hname
      rw [Itoa_natCast] at hname
      have := padded_eq_FormatUint _ j W (List.append_cancel_left hname)
      omega
    · rw [lookup_row_padded _ _ j rfl]
      have h1 : j < intCutoff := by omega
      have h2 : (j : Int) ≤ img.Bounds.Max.X := by omega
      simp only [h1, h2, and_self, if_true]
      intro hEq
      simp only [Except.ok.injEq, Node.dir.injEq, Dir.mk.injEq, List.cons_append,
        List.nil_append, List.cons.injEq, Nat.cast_inj] at hEq
      omega
  · intro n hlo hhi
    rw [lookup_root_int _ n rfl hlo hhi, hY]
    by_cases h : (H : Int) < n
    · simp [h]
    · simp only [h, if_false, iff_false]
      intro hEq
      cases hEq
  · intro n hlo hhi
    rw [lookup_row_int _ n rfl hlo hhi, hX]
    by_cases h : (W : Int) < n
    · simp [h]
    · simp only [h, if_false, iff_false]
      intro hEq
      cases hEq

/-- Claim C15 at the 2x1 example image: `row1` resolves to the row directory
with index 1, and `col2` in row 0 to the pixel directory `(0, 2)`. -/
theorem C15_bound_reachable_not_listed_witness :
    ({ img := exampleImage, dirType := .root, value := [] } : Dir).Lookup
        ("row".toList ++ Itoa ((1 : Nat) : Int))
      = .ok (.dir { img := exampleImage, dirType := .row, value := [((1 : Nat) : Int)] }) ∧
    ({ img := exampleImage, dirType := .row, value := [0] } : Dir).Lookup
        ("col".toList ++ Itoa ((2 : Nat) : Int))
      = .ok (.dir { img := exampleImage, dirType := .pixel, value := [0, ((2 : Nat) : Int)] }) :=
  ⟨(C15_bound_reachable_not_listed exampleImage 2 1 0 rfl rfl (by decide) (by decide)).1,
   (C15_bound_reachable_not_listed exampleImage 2 1 0 rfl rfl (by decide) (by decide)).2.1⟩

/-- No digit character is the plus sign. -/
theorem digitChar_ne_plus (d : Nat) : digitChar d ≠ '+' := by
  unfold digitChar
  split <;> decide

/-- Claim C20. Lookup is not injective on names: for an image with bounds
`Min = (0, 0)`, `Max = (W, H)`, `H` in the range of `int`, and an index
`i < H`, the root resolves `row` followed by the plain decimal rendering of
`i`, by any number `k` of zeros and that rendering, and by a plus sign and
that rendering, all to the row directory `i`, the one the listed name at
position `i` resolves to; the signed name is not a listed name, and neither
is a name with more zeros than the listing pads with. -/
theorem C20_lookup_not_injective (img : Image) (W H i k : Nat)
    (hmin : img.Bounds.Min = { X := 0, Y := 0 })
    (hmax : img.Bounds.Max = { X := (W : Int), Y := (H : Int) })
    (hH : H < 2 ^ 63) (hi : i < H) :
    ({ img := img, dirType := .root, value := [] } : Dir).Lookup
        ("row".toList ++ FormatUint i)
      = .ok (.dir { img := img, dirType := .row, value := [(i : Int)] }) ∧
    ({ img := img, dirType := .root, value := [] } : Dir).Lookup
        ("row".toList ++ (List.replicate k '0' ++ FormatUint i))
      = .ok (.dir { img := img, dirType := .row, value := [(i : Int)] }) ∧
    ({ img := img, dirType := .root, value := [] } : Dir).Lookup
        ("row".toList ++ '+' :: FormatUint i)
      = .ok (.dir { img := img, dirType := .row, value := [(i : Int)] }) ∧
    (∃ e : Dirent,
      ({ img := img, dirType := .root, value := [] } : Dir).ReadDirAll[i]? = some e ∧
      ({ img := img, dirType := .root, value := [] } : Dir).Lookup e.Name
        = .ok (.dir { img := img, dirType := .row, value := [(i : Int)] })) ∧
    (∀ e ∈ ({ img := img, dirType := .root, value := [] } : Dir).ReadDirAll,
      e.Name ≠ "row".toList ++ '+' :: FormatUint i) ∧
    (digitCount H - digitCount i < k →
      ∀ e ∈ ({ img := img, dirType := .root, value := [] } : Dir).ReadDirAll,
        e.Name ≠ "row".toList ++ (List.replicate k '0' ++ FormatUint i)) := by
  have h1 : i < intCutoff := by
    have hH2 : H < intCutoff := hH
    omega
  have h2 : (i : Int) ≤ img.Bounds.Max.Y := by rw [hmax]; simp only; omega
  have hpad : ∀ k, ({ img := img, dirType := .root, value := [] } : Dir).Lookup
        ("row".toList ++ (List.replicate k '0' ++ FormatUint i))
      = .ok (.dir { img := img, dirType := .row, value := [(i : Int)] }) := by
    intro k
    rw [lookup_root_padded _ k i rfl]
    simp only [h1, h2, and_self, if_true]
  refine ⟨?_, hpad k, ?_, ?_, ?_, ?_⟩
  · simpa using hpad 0
  · have := lookup_root_plus { img := img, dirType := .root, value := [] } 0 i rfl
    simp only [List.replicate_zero, List.nil_append] at this
    rw [this]
    simp only [h1, h2, and_self, if_true]
  · refine ⟨{ Name := "row".toList ++
                (List.replicate (digitCount H - digitCount i) '0' ++ FormatUint i),
              Typ := .DT_Dir }, ?_, hpad _⟩
    rw [list_root_eq _ W H rfl hmin hmax]
    simp only [List.getElem?_map, List.getElem?_range hi, Option.map_some']
  · intro e he hname
    obtain ⟨j, _, rfl⟩ := mem_list_root _ W H rfl hmin hmax e he
    have hc := List.append_cancel_left hname
    obtain ⟨d, cs, _, hcs⟩ := zeros_FormatUint_head (digitCount H - digitCount j) j
    rw [hcs] at hc
    exact digitChar_ne_plus d (List.cons.inj hc).1
  · intro hk e he hname
    obtain ⟨j, hj, rfl⟩ := mem_list_root _ W H rfl hmin hmax e he
    have hc := congrArg List.length (List.append_cancel_left hname)
    rw [padded_length H j (Nat.le_of_lt hj)] at hc
    simp only [List.length_append, List.length_replicate, FormatUint_length] at hc
    have := digitCount_mono H i (Nat.le_of_lt hi)
    omega

/-- Claim C20 at the image of 12 columns and 101 rows, index 7: the names
`row7`, `row00007` and `row+7` all resolve to the row directory 7. -/
theorem C20_lookup_not_injective_witness :
    ({ img := wideImage, dirType := .root, value := [] } : Dir).Lookup
        ("row".toList ++ FormatUint 7)
      = .ok (.dir { img := wideImage, dirType := .row, value := [((7 : Nat) : Int)] }) ∧
    ({ img := wideImage, dirType := .root, value := [] } : Dir).Lookup
        ("row".toList ++ (List.replicate 4 '0' ++ FormatUint 7))
      = .ok (.dir { img := wideImage, dirType := .row, value := [((7 : Nat) : Int)] }) ∧
    ({ img := wideImage, dirType := .root, value := [] } : Dir).Lookup
        ("row".toList ++ '+' :: FormatUint 7)
      = .ok (.dir { img := wideImage, dirType := .row, value := [((7 : Nat) : Int)] }) ∧
    "row".toList ++ FormatUint 7 = "row7".toList ∧
    "row".toList ++ (List.replicate 4 '0' ++ FormatUint 7) = "row00007".toList ∧
    "row".toList ++ '+' :: FormatUint 7 = "row+7".toList :=
  ⟨(C20_lookup_not_injective wideImage 12 101 7 4 rfl rfl (by decide) (by decide)).1,
   (C20_lookup_not_injective wideImage 12 101 7 4 rfl rfl (by decide) (by decide)).2.1,
   (C20_lookup_not_injective wideImage 12 101 7 4 rfl rfl (by decide) (by decide)).2.2.1,
   by decide, by decide, by decide⟩

/-! ## The order of listed names -/

/-- The rendering in `w` digits has `w` characters. -/
theorem fixedDigits_length (w : Nat) : ∀ k, (fixedDigits w k).length = w := by
  induction w with
  | zero => intro k; rfl
  | succ w ih => intro k; simp [fixedDigits, ih]

/-- Zero in `w` digits is `w` zeros. -/
theorem fixedDigits_zero (w : Nat) : fixedDigits w 0 = List.replicate w '0' := by
  induction w with
  | zero => rfl
  | succ w ih =>
    rw [fixedDigits, Nat.zero_div, ih, List.replicate_succ']
    rfl

/-- Padding the rendering of `k` with zeros to `w` characters gives the
rendering in `w` digits, when `k` has at most `w` digits. -/
theorem padded_eq_fixedDigits (w : Nat) :
    ∀ k, digitCount k ≤ w →
      List.replicate (w - digitCount k) '0' ++ FormatUint k = fixedDigits w k := by
  induction w with
  | zero =>
    intro k h
    have := digitCount_pos k
    omega
  | succ w ih =>
    intro k h
    rw [fixedDigits, FormatUint_unfold]
    rw [digitCount_unfold] at h ⊢
    by_cases hk : k < 10
    · simp only [hk, if_true] at h ⊢
      have h0 : k / 10 = 0 := by omega
      have hm : k % 10 = k := by omega
      rw [h0, hm, fixedDigits_zero]
      simp
    · simp only [hk, if_false] at h ⊢
      rw [← ih (k / 10) (by omega), List.append_assoc]
      have e : w + 1 - (digitCount (k / 10) + 1) = w - digitCount (k / 10) := by omega
      rw [e]

/-- A smaller digit has a smaller character. -/
theorem digitChar_lt (d e : Nat) (hde : d < e) (he : e < 10) : digitChar d < digitChar e := by
  interval_cases e <;> interval_cases d <;> decide

/-- Lexicographic order is kept when the same string is put in front. -/
theorem lex_append_left (p s t : GoString) (h : lexLess s t) : lexLess (p ++ s) (p ++ t) := by
  induction p with
  | nil => exact h
  | cons c p ih => exact List.Lex.cons ih

/-- Lexicographic order of two strings of the same length is kept whatever is
put behind them. -/
theorem lex_append_right (s t : GoString) (h : lexLess s t) :
    s.length = t.length → ∀ x y : GoString, lexLess (s ++ x) (t ++ y) := by
  unfold lexLess at h
  induction h with
  | nil => intro hl; simp at hl
  | cons _ ih =>
    intro hl x y
    exact List.Lex.cons (ih (by simpa using hl) x y)
  | rel hab => intro _ x y; exact List.Lex.rel hab

/-- Lexicographic order is irreflexive. -/
theorem lexLess_irrefl (s : GoString) : ¬ lexLess s s := by
  intro h
  induction s with
  | nil => cases h
  | cons c cs ih =>
    cases h with
    | cons h1 => exact ih h1
    | rel h1 => exact lt_irrefl c h1

/-- Among numbers of at most `w` digits, the smaller number has the smaller
rendering in `w` digits, in lexicographic order. -/
theorem fixedDigits_lt (w : Nat) :
    ∀ a b, a < b → digitCount b ≤ w → lexLess (fixedDigits w a) (fixedDigits w b) := by
  induction w with
  | zero =>
    intro a b _ h
    have := digitCount_pos b
    omega
  | succ w ih =>
    intro a b hab hb
    simp only [fixedDigits]
    by_cases hq : a / 10 < b / 10
    · have hb10 : ¬ b < 10 := by omega
      rw [digitCount_unfold] at hb
      simp only [hb10, if_false] at hb
      exact lex_append_right _ _ (ih (a / 10) (b / 10) hq (by omega))
        (by rw [fixedDigits_length, fixedDigits_length]) _ _
    · have hq2 : a / 10 = b / 10 := by omega
      rw [hq2]
      exact lex_append_left _ _ _
        (List.Lex.rel (digitChar_lt (a % 10) (b % 10) (by omega) (by omega)))

/-- Zero-padded renderings with the same width grow with the number. -/
theorem padded_lt (n a b : Nat) (hab : a < b) (hb : b ≤ n) :
    lexLess (List.replicate (digitCount n - digitCount a) '0' ++ FormatUint a)
      (List.replicate (digitCount n - digitCount b) '0' ++ FormatUint b) := by
  rw [padded_eq_fixedDigits _ a (digitCount_mono n a (by omega)),
    padded_eq_fixedDigits _ b (digitCount_mono n b hb)]
  exact fixedDigits_lt _ a b hab (digitCount_mono n b hb)

/-- The names `pre` followed by the zero-padded renderings of `0, .., n - 1`
all have `|pre| + digitCount n` characters, increase strictly in lexicographic
order, and are pairwise distinct. -/
theorem padded_names_ordered (pre : GoString) (n : Nat) :
    (∀ nm ∈ (List.range n).map (fun (k : Nat) =>
        pre ++ (List.replicate (digitCount n - digitCount k) '0' ++ FormatUint k)),
      nm.length = pre.length + digitCount n) ∧
    ((List.range n).map (fun (k : Nat) =>
        pre ++ (List.replicate (digitCount n - digitCount k) '0' ++ FormatUint k))).Pairwise
      lexLess ∧
    ((List.range n).map (fun (k : Nat) =>
        pre ++ (List.replicate (digitCount n - digitCount k) '0' ++ FormatUint k))).Nodup := by
  have hpw : ((List.range n).map (fun (k : Nat) =>
        pre ++ (List.replicate (digitCount n - digitCount k) '0' ++ FormatUint k))).Pairwise
      lexLess := by
    rw [List.pairwise_map]
    refine (List.pairwise_lt_range n).imp_of_mem ?_
    intro a b _ hb hab
    exact lex_append_left pre _ _ (padded_lt n a b hab (Nat.le_of_lt (List.mem_range.mp hb)))
  refine ⟨?_, hpw, ?_⟩
  · intro nm hnm
    obtain ⟨k, hk, rfl⟩ := List.mem_map.mp hnm
    rw [List.length_append, padded_length n k (Nat.le_of_lt (List.mem_range.mp hk))]
  · refine hpw.imp ?_
    intro a b hab heq
    rw [heq] at hab
    exact lexLess_irrefl b hab

/-- Claim C17. For an image with bounds `Min = (0, 0)`, `Max = (W, H)`: the
names of the root listing all have `3 + digitCount H` characters, increase
strictly in byte-wise lexicographic order along the listing, and are pairwise
distinct; the names of the listing of a row directory likewise, with
`3 + digitCount W` characters. -/
theorem C17_listed_names_ordered (img : Image) (W H : Nat) (y : Int)
    (hmin : img.Bounds.Min = { X := 0, Y := 0 })
    (hmax : img.Bounds.Max = { X := (W : Int), Y := (H : Int) }) :
    ((∀ nm ∈ (({ img := img, dirType := .root, value := [] } : Dir).ReadDirAll.map Dirent.Name),
        nm.length = 3 + digitCount H) ∧
      (({ img := img, dirType := .root, value := [] } : Dir).ReadDirAll.map
        Dirent.Name).Pairwise lexLess ∧
      (({ img := img, dirType := .root, value := [] } : Dir).ReadDirAll.map
        Dirent.Name).Nodup) ∧
    ((∀ nm ∈ (({ img := img, dirType := .row, value := [y] } : Dir).ReadDirAll.map Dirent.Name),
        nm.length = 3 + digitCount W) ∧
      (({ img := img, dirType := .row, value := [y] } : Dir).ReadDirAll.map
        Dirent.Name).Pairwise lexLess ∧
      (({ img := img, dirType := .row, value := [y] } : Dir).ReadDirAll.map
        Dirent.Name).Nodup) := by
  constructor
  · rw [list_root_eq _ W H rfl hmin hmax, List.map_map]
    exact padded_names_ordered "row".toList H
  · rw [list_row_eq _ W H rfl hmin hmax, List.map_map]
    exact padded_names_ordered "col".toList W

/-- Claim C17 at the image of 12 columns and 101 rows: the 101 row names have
6 characters each and increase strictly; the 12 column names have 5. -/
theorem C17_listed_names_ordered_witness :
    ((∀ nm ∈ (({ img := wideImage, dirType := .root, value := [] } : Dir).ReadDirAll.map
          Dirent.Name), nm.length = 3 + digitCount 101) ∧
      (({ img := wideImage, dirType := .root, value := [] } : Dir).ReadDirAll.map
        Dirent.Name).Pairwise lexLess ∧
      (({ img := wideImage, dirType := .root, value := [] } : Dir).ReadDirAll.map
        Dirent.Name).Nodup) ∧
    ((∀ nm ∈ (({ img := wideImage, dirType := .row, value := [5] } : Dir).ReadDirAll.map
          Dirent.Name), nm.length = 3 + digitCount 12) ∧
      (({ img := wideImage, dirType := .row, value := [5] } : Dir).ReadDirAll.map
        Dirent.Name).Pairwise lexLess ∧
      (({ img := wideImage, dirType := .row, value := [5] } : Dir).ReadDirAll.map
        Dirent.Name).Nodup) :=
  C17_listed_names_ordered wideImage 12 101 5 rfl rfl

/-! ## Reachable directories -/

/-- A successful lookup of a directory keeps the image and gives a directory
of the right shape, when the directory looked in has the right shape. -/
theorem lookup_dir_shape (d d1 : Dir) (name : GoString) (hs : shapeOk d = true)
    (h : d.Lookup name = .ok (.dir d1)) : shapeOk d1 = true := by
  unfold Dir.Lookup at h
  split at h
  · split at h
    · split at h
      · cases h
      · split at h
        · cases h
        · simp only [Except.ok.injEq, Node.dir.injEq] at h
          rw [← h]
          rfl
    · cases h
  · next hrow =>
    split at h
    · split at h
      · cases h
      · split at h
        · cases h
        · simp only [Except.ok.injEq, Node.dir.injEq] at h
          rw [← h]
          simp only [shapeOk, hrow, beq_iff_eq] at hs
          simp [shapeOk, hs]
    · cases h
  · split at h
    · split at h <;> cases h
    · cases h

/-- A directory of the right shape never fails by an index out of range. -/
theorem lookup_no_index_failure (d : Dir) (name : GoString) (hs : shapeOk d = true) :
    d.Lookup name ≠ .error .indexOutOfRange := by
  intro h
  unfold Dir.Lookup at h
  split at h
  · split at h
    · split at h
      · cases h
      · split at h <;> cases h
    · cases h
  · split at h
    · split at h
      · cases h
      · split at h <;> cases h
    · cases h
  · next hpix =>
    simp only [shapeOk, hpix, beq_iff_eq] at hs
    obtain ⟨y, x, hv⟩ : ∃ y x, d.value = [y, x] := by
      match hd : d.value, hs with
      | [y, x], _ => exact ⟨y, x, rfl⟩
    rw [hv] at h
    split at h
    · simp at h
    · cases h

/-- Claim C19. Every directory reachable from `FS.Root` by successful
`Dir.Lookup` calls has an index list whose length matches its kind (root 0,
row 1, pixel 2), so no lookup in it fails by an index out of range. -/
theorem C19_reachable_shape (fs : FS) (d : Dir) (h : Reachable fs d) :
    shapeOk d = true ∧
    (d.dirType = .root → d.value = []) ∧
    (d.dirType = .row → ∃ y, d.value = [y]) ∧
    (d.dirType = .pixel → ∃ y x, d.value = [y, x]) ∧
    ∀ name, d.Lookup name ≠ .error .indexOutOfRange := by
  have hs : shapeOk d = true := by
    induction h with
    | root d hd =>
      simp only [FS.Root, Except.ok.injEq] at hd
      rw [← hd]
      rfl
    | step d d1 name _ hl ih => exact lookup_dir_shape d d1 name ih hl
  refine ⟨hs, ?_, ?_, ?_, fun name => lookup_no_index_failure d name hs⟩
  · intro ht
    simp only [shapeOk, ht, beq_iff_eq] at hs
    exact List.length_eq_zero.mp hs
  · intro ht
    simp only [shapeOk, ht, beq_iff_eq] at hs
    match hd : d.value, hs with
    | [y], _ => exact ⟨y, rfl⟩
  · intro ht
    simp only [shapeOk, ht, beq_iff_eq] at hs
    match hd : d.value, hs with
    | [y, x], _ => exact ⟨y, x, rfl⟩

/-- Claim C19 at the example image: the pixel directory reached by `row0` and
then `col1` has the index list `[0, 1]` of length 2. -/
theorem C19_reachable_shape_witness :
    shapeOk { img := exampleImage, dirType := .pixel, value := [0, 1] } = true ∧
    ∀ name, ({ img := exampleImage, dirType := .pixel, value := [0, 1] } : Dir).Lookup name
      ≠ .error .indexOutOfRange :=
  ⟨(C19_reachable_shape { img := exampleImage }
      { img := exampleImage, dirType := .pixel, value := [0, 1] }
      (Reachable.step { img := exampleImage, dirType := .row, value := [0] } _ "col1".toList
        (Reachable.step { img := exampleImage, dirType := .root, value := [] } _ "row0".toList
          (Reachable.root _ rfl) rfl) rfl)).1,
   (C19_reachable_shape { img := exampleImage }
      { img := exampleImage, dirType := .pixel, value := [0, 1] }
      (Reachable.step { img := exampleImage, dirType := .row, value := [0] } _ "col1".toList
        (Reachable.step { img := exampleImage, dirType := .root, value := [] } _ "row0".toList
          (Reachable.root _ rfl) rfl) rfl)).2.2.2.2⟩

/-! ## Two sessions on one file -/

/-- A digit character is a decimal digit byte. -/
theorem isDigitByte_digitChar (d : Nat) : isDigitByte (digitChar d) = true := by
  unfold digitChar
  split <;> decide

/-- Every character of a rendering is a decimal digit. -/
theorem FormatUint_all_digits (n : Nat) : ∀ c ∈ FormatUint n, isDigitByte c = true := by
  induction n using Nat.strong_induction_on with
  | _ n ih =>
    intro c hc
    rw [FormatUint_unfold] at hc
    by_cases h : n < 10
    · simp only [h, if_true, List.mem_singleton] at hc
      rw [hc]
      exact isDigitByte_digitChar n
    · simp only [h, if_false, List.mem_append, List.mem_singleton] at hc
      rcases hc with hc | hc
      · exact ih (n / 10) (by omega) c hc
      · rw [hc]
        exact isDigitByte_digitChar _

/-- The rendering of a positive number starts with a digit other than zero. -/
theorem FormatUint_head_pos (n : Nat) (hn : 0 < n) :
    ∃ d cs, 0 < d ∧ d < 10 ∧ FormatUint n = digitChar d :: cs := by
  induction n using Nat.strong_induction_on with
  | _ n ih =>
    rw [FormatUint_unfold]
    by_cases h : n < 10
    · exact ⟨n, [], hn, h, by simp [h]⟩
    · obtain ⟨d, cs, hd0, hd, hcs⟩ := ih (n / 10) (by omega) (by omega)
      exact ⟨d, cs ++ [digitChar (n % 10)], hd0, hd, by simp [h, hcs]⟩

/-- A rendering has no leading zero, except the rendering of zero itself. -/
theorem FormatUint_no_leading_zero (n : Nat) (h : (FormatUint n).head? = some '0') :
    FormatUint n = ['0'] := by
  by_cases hn : n = 0
  · rw [hn]; rfl
  · obtain ⟨d, cs, hd0, hd, hcs⟩ := FormatUint_head_pos n (by omega)
    rw [hcs] at h
    simp only [List.head?_cons, Option.some.injEq] at h
    exfalso
    interval_cases d <;> simp [digitChar] at h

/-- Claim C14. For a channel file named `r`, `g` or `b` whose sample lies in
`0..0xFFFF`, `File.getContents` returns `d` followed by a newline, where `d`
is the decimal rendering of a number `v` in `0..255` (the sample shifted
right by 8): only digits, so no sign, no leading zero unless `d` is `0`, the
rendering `Nat.repr v`; the content has 2 to 4 bytes and exactly one newline,
its last byte. -/
theorem C14_content_shape (f : File)
    (hc : f.name = "r".toList ∨ f.name = "g".toList ∨ f.name = "b".toList)
    (hs : sampleOf (f.img.At f.x f.y) f.name ≤ 0xFFFF) :
    ∃ (v : Nat) (colStr : GoString),
      v = sampleOf (f.img.At f.x f.y) f.name >>> 8 ∧ v ≤ 255 ∧
      f.getContents = .ok colStr ∧
      colStr = FormatUint v ++ ['\n'] ∧
      (∀ c ∈ FormatUint v, isDigitByte c = true) ∧
      ((FormatUint v).head? = some '0' → FormatUint v = ['0']) ∧
      parseDigits (FormatUint v) 0 = some v ∧
      FormatUint v = (Nat.repr v).toList ∧
      2 ≤ colStr.length ∧ colStr.length ≤ 4 ∧
      colStr.count '\n' = 1 ∧ colStr.getLast? = some '\n' := by
  have e : f.getContents = .ok (channelText (sampleOf (f.img.At f.x f.y) f.name)) :=
    getContents_channel f.img f.x f.y f.name hc
  have hv : sampleOf (f.img.At f.x f.y) f.name >>> 8 ≤ 255 := by
    rw [Nat.shiftRight_eq_div_pow]
    omega
  have hdc : digitCount (sampleOf (f.img.At f.x f.y) f.name >>> 8) ≤ 3 :=
    digitCount_mono 255 _ hv
  have hpos := digitCount_pos (sampleOf (f.img.At f.x f.y) f.name >>> 8)
  have hlen := channelText_length (sampleOf (f.img.At f.x f.y) f.name)
  have hnl : '\n' ∉ FormatUint (sampleOf (f.img.At f.x f.y) f.name >>> 8) := by
    intro hmem
    have := FormatUint_all_digits _ _ hmem
    exact absurd this (by decide)
  refine ⟨sampleOf (f.img.At f.x f.y) f.name >>> 8,
    channelText (sampleOf (f.img.At f.x f.y) f.name), rfl, hv, e, rfl,
    FormatUint_all_digits _, FormatUint_no_leading_zero _, parseDigits_FormatUint _,
    FormatUint_eq_repr _, by omega, by omega, ?_, ?_⟩
  · show (FormatUint (sampleOf (f.img.At f.x f.y) f.name >>> 8) ++ ['\n']).count '\n' = 1
    rw [List.count_append, List.count_eq_zero.mpr hnl]
    rfl
  · show (FormatUint (sampleOf (f.img.At f.x f.y) f.name >>> 8) ++ ['\n']).getLast? = some '\n'
    simp

/-- Claim C14 at the example image, channel `b` of the pixel `(0, 0)` with
sample `0x8000`: the content is `128` and a newline, 4 bytes. -/
theorem C14_content_shape_witness :
    ∃ (v : Nat) (colStr : GoString),
      v = sampleOf (exampleImage.At 0 0) "b".toList >>> 8 ∧ v ≤ 255 ∧
      ({ img := exampleImage, name := "b".toList, x := 0, y := 0 } : File).getContents =
        .ok colStr ∧
      colStr = FormatUint v ++ ['\n'] ∧
      (∀ c ∈ FormatUint v, isDigitByte c = true) ∧
      ((FormatUint v).head? = some '0' → FormatUint v = ['0']) ∧
      parseDigits (FormatUint v) 0 = some v ∧
      FormatUint v = (Nat.repr v).toList ∧
      2 ≤ colStr.length ∧ colStr.length ≤ 4 ∧
      colStr.count '\n' = 1 ∧ colStr.getLast? = some '\n' :=
  C14_content_shape { img := exampleImage, name := "b".toList, x := 0, y := 0 }
    (Or.inr (Or.inr rfl)) (by decide)

end Imgfs
